import Mathlib

/-!
# updateTheme.js: the theme-update workflow driver

A shallow embedding of `.github/workflows/scripts/updateTheme.js`.

The script is sequential: it validates four environment variables, builds an
`Authorization` header, and then `run` submits an update job, uploads the
theme archive and polls the job status with a growing wait interval.

Modelling conventions.

* Remote calls, the clock and the process environment are inputs (`Env`,
  `ProcessEnv`); the script is a function from these inputs to a trace of
  observable events (`Event`) and an exit code.
* JavaScript numbers are modelled by `ℚ`.  Every number the script computes
  from its own constants (5000, 1.5, 60000, 5 * 60 * 1000) is a dyadic
  rational with a short mantissa, so double arithmetic is exact on them.
* `process.exit(1)` ends the trace with `Event.exit 1`; a `run` that returns
  normally lets the process end with code 0 (`Event.exit 0`).
* `console.log` / `console.error` output is not part of the trace.  Each
  `fs.appendFileSync(process.env.GITHUB_STEP_SUMMARY, ...)` call is one
  `Event.append` carrying a structured `Record`; the summary file is assumed
  writable.
* The poll loop has no static iteration bound, so `pollLoop` takes a fuel
  argument that bounds the number of loop iterations observed; a run that is
  still inside the loop when the fuel is used up has exit code `none`.
-/

namespace UpdateTheme

/-! ## Data model -/

/-- One error descriptor of a failed job, kept as opaque text. -/
abbrev ErrorDescriptor := String

/-- The `job` object of a status response (`response.data.job`): its `status`
and its `errors` field (absent unless the platform supplies it).  A status
that is absent or not a string behaves like any string other than the three
literals the script compares against. -/
structure Job where
  status : String
  errors : Option (List ErrorDescriptor)
deriving DecidableEq, Repr

/-- The field mapping `parameters` of an upload object, as the loop of lines
65-67 meets it. -/
inductive FieldMapping where
  /-- Every value is text (a string or a number): `form.append` accepts each
  field. -/
  | fields (kv : List (String × String))
  /-- Some value is one on which `form.append` throws (for example an array or
  `null`). -/
  | unappendable
deriving DecidableEq, Repr

/-- The `upload` object of a submission response as received: its `url` and
its `parameters`, each possibly absent. -/
structure UploadObject where
  url : Option String
  parameters : Option FieldMapping
deriving DecidableEq, Repr

/-- An upload target the upload step can build its form from: a URL and a
field mapping with text values, each possibly absent. -/
structure Upload where
  url : Option String
  parameters : Option (List (String × String))
deriving DecidableEq, Repr

/-- The `data` object of the job of a submission response. -/
structure JobData where
  upload : Option UploadObject
deriving DecidableEq, Repr

/-- The `job` object of a submission response. -/
structure SubmitJob where
  id : Option String
  data : Option JobData
deriving DecidableEq, Repr

/-- The body of a submission response (`response.data`). -/
structure SubmitData where
  job : Option SubmitJob
deriving DecidableEq, Repr

/-- The value `updateTheme` returns: `jobId`, `uploadUrl`, `uploadParameters`.
Each may be `undefined` (`none`), since reading a missing property of an
existing object does not throw. -/
structure UploadTarget where
  jobId : Option String
  uploadUrl : Option String
  uploadParameters : Option FieldMapping
deriving DecidableEq, Repr

/-- One block appended to the step summary.  The constructor is the heading of
the block, the argument is the value the script passes to `JSON.stringify`
(or interpolates) for the body of the block. -/
inductive Record where
  /-- Heading `## Update Theme Response` (line 43). -/
  | updateThemeResponse (data : SubmitData)
  /-- Heading `## Update Theme Error` (line 56). -/
  | updateThemeError
  /-- Heading `## Upload Theme File Response` (line 85). -/
  | uploadResponse
  /-- Heading `## Upload Theme File Error` (line 92). -/
  | uploadError
  /-- Heading `## Check Update Job Status Response` (line 106). -/
  | statusResponse (job : Job)
  /-- Heading `## Check Update Job Status Error` (line 115). -/
  | statusError
  /-- Heading `## Job Status Check Timeout` (line 171). -/
  | timeout
  /-- Heading `## Job Failed` with `jobStatus.errors` (line 183). -/
  | jobFailed (errors : Option (List ErrorDescriptor))
  /-- Heading `## Unexpected Job State` with `jobStatus.status` (line 189). -/
  | unexpectedState (status : String)
deriving DecidableEq, Repr

/-- Observable events of one execution, in program order. -/
inductive Event where
  /-- The submission call `instance.post(.../themes/updates)`. -/
  | submitCall
  /-- The upload call `axios.post(uploadUrl, form, ...)`. -/
  | uploadCall (url : Option String)
  /-- A status call `instance.get(.../jobs/id)` and its outcome. -/
  | statusCall (result : Option Job)
  /-- The timer `setTimeout(resolve, ms)` awaited by the poll loop. -/
  | wait (ms : ℚ)
  /-- One `fs.appendFileSync` on the step summary. -/
  | append (r : Record)
  /-- Process termination with the given code. -/
  | exit (code : Nat)
deriving DecidableEq, Repr

/-- The outside world of one execution of `run`. -/
structure Env where
  /-- Outcome of the submission call: `none` when the promise rejects. -/
  submit : Option SubmitData
  /-- Outcome of the upload call for a given URL: `true` when it resolves. -/
  upload : Option String → Bool
  /-- Outcome of the `i`-th status call (counted from 0): `none` when the
  promise rejects or the body has no `job`. -/
  status : Nat → Option Job
  /-- Value of the `i`-th `Date.now()` reading (counted from 0; reading 0 is
  `startTime`), given the waits awaited so far, oldest first. -/
  now : Nat → List ℚ → ℚ

/-- The four environment variables the script reads. -/
structure ProcessEnv where
  subdomain : Option String
  email : Option String
  token : Option String
  themeId : Option String
deriving DecidableEq, Repr

/-- Result of running the program: the events so far and the exit code, if the
process has exited. -/
structure Outcome where
  trace : List Event
  exitCode : Option Nat
deriving DecidableEq, Repr

/-! ## Startup (lines 5-25) -/

/-- JavaScript truthiness of an environment variable: set and non-empty. -/
def truthy (v : Option String) : Bool :=
  match v with
  | none => false
  | some s => s != ""

/-- The JavaScript comma operator: evaluates both operands, yields the second. -/
def commaOp (_a b : Bool) : Bool := b

/-- The condition of the `if` on line 6:
`!SUBDOMAIN || !EMAIL || !TOKEN, !THEME_ID`. -/
def validationFails (p : ProcessEnv) : Bool :=
  commaOp (!truthy p.subdomain || !truthy p.email || !truthy p.token) (!truthy p.themeId)

/-- A template-literal interpolation of an environment variable: an unset
variable reads as the text `undefined`. -/
def interpolate (v : Option String) : String := v.getD "undefined"

/-- The template literal on line 11: the e-mail, `/token:`, the token. -/
def credential (p : ProcessEnv) : String :=
  interpolate p.email ++ "/token:" ++ interpolate p.token

/-- The UTF-16 code units of a character: itself below U+10000, a surrogate
pair from there on. -/
def utf16Units (c : Char) : List Nat :=
  if c.toNat < 65536 then [c.toNat]
  else [55296 + (c.toNat - 65536) / 1024, 56320 + (c.toNat - 65536) % 1024]

/-- The UTF-16 code units of a text, as the runtime stores a string. -/
def codeUnits : List Char → List Nat
  | [] => []
  | c :: cs => utf16Units c ++ codeUnits cs

/-- Value of a byte in the Base64 alphabets the runtime accepts when it
decodes: `A`-`Z` (65-90), `a`-`z` (97-122), `0`-`9` (48-57), `+` and `-`
(43, 45) for 62, `/` and `_` (47, 95) for 63; `none` for any other byte. -/
def unbase64 (b : Nat) : Option Nat :=
  if 65 ≤ b ∧ b ≤ 90 then some (b - 65)
  else if 97 ≤ b ∧ b ≤ 122 then some (b - 97 + 26)
  else if 48 ≤ b ∧ b ≤ 57 then some (b - 48 + 52)
  else if b = 43 ∨ b = 45 then some 62
  else if b = 47 ∨ b = 95 then some 63
  else none

/-- The Base64 digits the runtime's decoder reads from the code units of a
string: of each unit only the low byte is looked at; a byte outside the
alphabet is skipped and the first `=` (61) ends the input. -/
def legalDigits : List Nat → List Nat
  | [] => []
  | u :: us =>
    if u % 256 = 61 then []
    else
      match unbase64 (u % 256) with
      | some v => v :: legalDigits us
      | none => legalDigits us

/-- Bytes of a sequence of Base64 digits: four digits give three bytes; a final
group of three digits gives two bytes, of two digits one byte, of one digit
none. -/
def decodeDigits : List Nat → List Nat
  | a :: b :: c :: d :: rest =>
    (a * 4 + b / 16) :: ((b % 16) * 16 + c / 4) :: ((c % 4) * 64 + d) :: decodeDigits rest
  | [a, b, c] => [a * 4 + b / 16, (b % 16) * 16 + c / 4]
  | [a, b] => [a * 4 + b / 16]
  | _ => []

/-- `Buffer.from(s, 'base64')` of the runtime: the bytes obtained by reading
`s` as Base64 text. -/
def bufferFromBase64 (s : String) : List Nat :=
  decodeDigits (legalDigits (codeUnits s.toList))

/-- `authValue` (line 11): `Buffer.from(credential, 'base64').toString('utf8')`.
The runtime's UTF-8 decoding of a buffer, `toUtf8`, is a parameter. -/
def authValue (toUtf8 : List Nat → String) (p : ProcessEnv) : String :=
  toUtf8 (bufferFromBase64 (credential p))

/-- The `i`-th character of the standard Base64 alphabet. -/
def base64Char (i : Nat) : Char :=
  "ABCDEFGHIJKLMNOPQRSTUVWXYZabcdefghijklmnopqrstuvwxyz0123456789+/".toList.getD i 'A'

/-- Standard Base64 encoding (with padding) of a sequence of bytes. -/
def base64Encode : List Nat → List Char
  | a :: b :: c :: rest =>
    base64Char (a / 4) :: base64Char ((a % 4) * 16 + b / 16) ::
      base64Char ((b % 16) * 4 + c / 64) :: base64Char (c % 64) :: base64Encode rest
  | [a, b] => [base64Char (a / 4), base64Char ((a % 4) * 16 + b / 16), base64Char ((b % 16) * 4), '=']
  | [a] => [base64Char (a / 4), base64Char ((a % 4) * 16), '=', '=']
  | [] => []

/-- The credential the comment on line 17 describes: the Base64 encoding of
the credential text (whose characters are ASCII in the examples below). -/
def describedCredential (p : ProcessEnv) : String :=
  String.mk (base64Encode ((credential p).toList.map Char.toNat))

/-- Process environment with the subdomain unset and the other three set. -/
def noSubdomain : ProcessEnv :=
  ⟨none, some "agent@example.com", some "abc123", some "360001234567"⟩

/-- Process environment with all four variables set. -/
def fullProcessEnv : ProcessEnv :=
  ⟨some "acme", some "agent@example.com", some "abc123", some "360001234567"⟩

/-- `MAX_WAIT_TIME = 5 * 60 * 1000` (line 25). -/
def MAX_WAIT_TIME : ℚ := 5 * 60 * 1000

/-! ## The three remote steps (lines 27-119) -/

/-- `updateTheme` (lines 27-60).  The summary block for the response is
appended before the fields are read; reading `.id` of a missing `job`, `.upload`
of a missing `data`, or `.url` of a missing `upload` throws, and the `catch`
appends the error block and exits with 1.  Result `none` means the process
exited. -/
def updateTheme (env : Env) : List Event × Option UploadTarget :=
  match env.submit with
  | none => ([.submitCall, .append .updateThemeError, .exit 1], none)
  | some d =>
    match d.job with
    | none => ([.submitCall, .append (.updateThemeResponse d), .append .updateThemeError, .exit 1], none)
    | some j =>
      match j.data with
      | none => ([.submitCall, .append (.updateThemeResponse d), .append .updateThemeError, .exit 1], none)
      | some jd =>
        match jd.upload with
        | none => ([.submitCall, .append (.updateThemeResponse d), .append .updateThemeError, .exit 1], none)
        | some u => ([.submitCall, .append (.updateThemeResponse d)], some ⟨j.id, u.url, u.parameters⟩)

/-- How a call of `uploadThemeFile` ended. -/
inductive UploadEnd where
  /-- The upload call resolved and the function returned. -/
  | returned
  /-- The `catch` of the upload call exited the process. -/
  | exited
  /-- `form.append` threw on lines 65-67, outside both `try` blocks. -/
  | threw
deriving DecidableEq, Repr

/-- `uploadThemeFile` (lines 62-96).  The loop of lines 65-67 adds the fields
of the mapping to the form; on a value it cannot append `form.append` throws,
outside both `try` blocks, before the file is opened and before any upload
call.  `fs.createReadStream` on the fixed path reports a missing file through
the stream, not by throwing, so the first `try` never exits; a failing stream
makes the upload call reject. -/
def uploadThemeFile (env : Env) (uploadUrl : Option String)
    (uploadParameters : Option FieldMapping) : List Event × UploadEnd :=
  if uploadParameters = some .unappendable then
    ([], .threw)
  else if env.upload uploadUrl then
    ([.uploadCall uploadUrl, .append .uploadResponse], .returned)
  else
    ([.uploadCall uploadUrl, .append .uploadError, .exit 1], .exited)

/-- `checkUpdateJobStatus` (lines 98-119) on the outcome `r` of its status
call.  Result `none` means the process exited. -/
def checkUpdateJobStatus (r : Option Job) : List Event × Option Job :=
  match r with
  | none => ([.statusCall none, .append .statusError, .exit 1], none)
  | some job =>
    if job.status ≠ "pending" then
      ([.statusCall (some job), .append (.statusResponse job)], some job)
    else
      ([.statusCall (some job)], some job)

/-! ## The workflow driver (lines 155-196) -/

/-- How an execution of the `while` loop ended. -/
inductive LoopEnd where
  /-- The loop was left (condition false, or `break`) with this `jobStatus`. -/
  | left (jobStatus : Job)
  /-- A status call inside the loop exited the process. -/
  | exited
  /-- The loop is still running after the observed iterations. -/
  | running
deriving DecidableEq, Repr

/-- The `while` loop of `run` (lines 168-179).  `jobStatus` and
`attemptInterval` are the loop variables, `n` is the number of status calls
made so far (also the index of the next `Date.now()` reading) and `ws` the
waits awaited so far. -/
def pollLoop (env : Env) (startTime : ℚ) :
    Nat → Job → ℚ → Nat → List ℚ → List Event × LoopEnd
  | fuel, jobStatus, attemptInterval, n, ws =>
    if jobStatus.status ≠ "completed" ∧ jobStatus.status ≠ "failed" then
      if env.now n ws - startTime > MAX_WAIT_TIME then
        ([.append .timeout], .left jobStatus)
      else
        match fuel with
        | 0 => ([], .running)
        | fuel + 1 =>
          match checkUpdateJobStatus (env.status n) with
          | (evs, none) => (.wait attemptInterval :: evs, .exited)
          | (evs, some job) =>
            let rest := pollLoop env startTime fuel job
              (min (attemptInterval * (3 / 2)) 60000) (n + 1) (ws ++ [attemptInterval])
            (.wait attemptInterval :: evs ++ rest.1, rest.2)
    else
      ([], .left jobStatus)

/-- The branches after the loop (lines 181-191). -/
def report (jobStatus : Job) : List Event × Nat :=
  if jobStatus.status = "failed" then
    ([.append (.jobFailed jobStatus.errors), .exit 1], 1)
  else if jobStatus.status = "completed" then
    ([.exit 0], 0)
  else
    ([.append (.unexpectedState jobStatus.status), .exit 1], 1)

/-- The final `run` (lines 155-196).  The helpers catch the errors of their
remote calls and exit themselves; the outer `catch` of `run` (lines 192-195)
is reached when `form.append` throws in `uploadThemeFile`, and exits with 1. -/
def run (fuel : Nat) (env : Env) : Outcome :=
  match updateTheme env with
  | (e1, none) => ⟨e1, some 1⟩
  | (e1, some target) =>
    match uploadThemeFile env target.uploadUrl target.uploadParameters with
    | (e2, .threw) => ⟨e1 ++ e2 ++ [.exit 1], some 1⟩
    | (e2, .exited) => ⟨e1 ++ e2, some 1⟩
    | (e2, .returned) =>
      match checkUpdateJobStatus (env.status 0) with
      | (e3, none) => ⟨e1 ++ e2 ++ e3, some 1⟩
      | (e3, some jobStatus) =>
        let startTime := env.now 0 []
        let attemptInterval : ℚ := 5000
        match pollLoop env startTime fuel jobStatus attemptInterval 1 [] with
        | (e4, .exited) => ⟨e1 ++ e2 ++ e3 ++ e4, some 1⟩
        | (e4, .running) => ⟨e1 ++ e2 ++ e3 ++ e4, none⟩
        | (e4, .left job) =>
          let r := report job
          ⟨e1 ++ e2 ++ e3 ++ e4 ++ r.1, some r.2⟩

/-- The whole script: validation (lines 5-9), then `run()` (line 198). -/
def script (p : ProcessEnv) (fuel : Nat) (env : Env) : Outcome :=
  if validationFails p then ⟨[.exit 1], some 1⟩ else run fuel env

/-! ## Trace projections -/

/-- Outcomes of the status calls of a trace, in order. -/
def fetches (t : List Event) : List (Option Job) :=
  t.filterMap fun e => match e with
    | .statusCall r => some r
    | _ => none

/-- Durations of the waits of a trace, in order. -/
def waits (t : List Event) : List ℚ :=
  t.filterMap fun e => match e with
    | .wait ms => some ms
    | _ => none

/-- Blocks appended to the summary, in order. -/
def records (t : List Event) : List Record :=
  t.filterMap fun e => match e with
    | .append r => some r
    | _ => none

/-- URLs of the upload calls of a trace, in order. -/
def uploadCalls (t : List Event) : List (Option String) :=
  t.filterMap fun e => match e with
    | .uploadCall u => some u
    | _ => none

/-- The status calls and waits of a trace, in order, with the status results
erased: `none` is a status call, `some ms` a wait of `ms`. -/
def pollEvents (t : List Event) : List (Option ℚ) :=
  t.filterMap fun e => match e with
    | .statusCall _ => some none
    | .wait ms => some (some ms)
    | _ => none

/-! ## Reference inputs -/

/-- The clock that advances only by the waits awaited: reading `t0` plus the
sum of the waits so far. -/
def simulatedClock (t0 : ℚ) : Nat → List ℚ → ℚ := fun _ ws => t0 + ws.sum

/-- A well-formed submission response. -/
def okSubmit : SubmitData :=
  ⟨some ⟨some "job-1", some ⟨some ⟨some "https://uploads.example/put",
    some (.fields [("key", "value")])⟩⟩⟩⟩

/-- A job that is still pending. -/
def pendingJob : Job := ⟨"pending", none⟩

/-- Environment in which every call succeeds, the status calls return the
given sequence, and time is simulated from 0. -/
def simEnv (status : Nat → Option Job) : Env :=
  ⟨some okSubmit, fun _ => true, status, simulatedClock 0⟩

/-- The status sequence `pending, pending, completed, ...`. -/
def twoPendingThenCompleted : Nat → Option Job := fun i =>
  if i < 2 then some pendingJob else some ⟨"completed", none⟩

/-- The status sequence `pending, failed, ...` whose `failed` responses carry the
two error descriptors `e1`, `e2`. -/
def pendingThenFailed : Nat → Option Job := fun i =>
  if i < 1 then some pendingJob else some ⟨"failed", some ["e1", "e2"]⟩

/-- A submission response whose `upload` object is present but has no `url`. -/
def noUrlSubmit : SubmitData :=
  ⟨some ⟨some "job-1", some ⟨some ⟨none, some (.fields [("key", "value")])⟩⟩⟩⟩

/-- Environment answering the submission with `noUrlSubmit`; the upload call
rejects when it is given no URL. -/
def noUrlEnv : Env :=
  ⟨some noUrlSubmit, fun url => url.isSome, fun _ => some pendingJob, simulatedClock 0⟩

/-- A submission response whose job data has no `upload` object. -/
def noUploadSubmit : SubmitData := ⟨some ⟨some "job-1", some ⟨none⟩⟩⟩

/-- Environment answering the submission with `noUploadSubmit`. -/
def noUploadEnv : Env :=
  ⟨some noUploadSubmit, fun _ => true, fun _ => some pendingJob, simulatedClock 0⟩

/-- Environment in which every call succeeds and every status call returns
`pending`, while every clock reading is 0: the clock never advances. -/
def frozenEnv : Env :=
  ⟨some okSubmit, fun _ => true, fun _ => some pendingJob, fun _ _ => 0⟩

/-! ## Derived descriptions used in the statements -/

/-- The success condition of a run with trace `t`: the submit call succeeded,
the one upload call succeeded, every status call succeeded, and the last
status fetched is exactly `completed`. -/
def Succeeded (env : Env) (t : List Event) : Prop :=
  env.submit ≠ none ∧
    (∃ url, uploadCalls t = [url] ∧ env.upload url = true) ∧
    (∀ r ∈ fetches t, r ≠ none) ∧
    ∃ j, (fetches t).getLast? = some (some j) ∧ j.status = "completed"

/-- The three constants of a capped geometric schedule of waits.  Schedules
are only a way to name the successive values of `attemptInterval` in the
statements below; the loop itself carries the literals of the source. -/
structure Config where
  /-- Initial value of the interval. -/
  initialInterval : ℚ
  /-- Factor applied to the interval at each update. -/
  growth : ℚ
  /-- Upper bound applied at each update. -/
  cap : ℚ

/-- The constants written in the source: 5000 (line 166), 1.5 and 60000
(line 178). -/
def sourceConfig : Config := ⟨5000, 3 / 2, 60000⟩

/-- One update of a schedule; `nextInterval sourceConfig` is the update of
`attemptInterval` on line 178. -/
def nextInterval (cfg : Config) (iv : ℚ) : ℚ := min (iv * cfg.growth) cfg.cap

/-- The first `m` values of a schedule that starts from `iv`;
`waitList sourceConfig m 5000` lists the first `m` values of
`attemptInterval`. -/
def waitList (cfg : Config) : Nat → ℚ → List ℚ
  | 0, _ => []
  | m + 1, iv => iv :: waitList cfg m (nextInterval cfg iv)

/-- The events of `m` consecutive loop iterations (wait, then status call) that
start with interval `iv` and status call number `n`. -/
def stepsTrace (cfg : Config) (env : Env) : Nat → ℚ → Nat → List Event
  | 0, _, _ => []
  | m + 1, iv, n =>
    .wait iv :: (checkUpdateJobStatus (env.status n)).1 ++
      stepsTrace cfg env m (nextInterval cfg iv) (n + 1)

/-- The `upload` object of a submission body, if `job`, `job.data` and
`job.data.upload` are all present. -/
def uploadObjectOf (d : SubmitData) : Option UploadObject :=
  (d.job.bind fun j => j.data).bind fun jd => jd.upload

/-- The upload target an upload object gives, if `form.append` accepts every
field of its mapping. -/
def UploadObject.target (o : UploadObject) : Option Upload :=
  match o.parameters with
  | none => some ⟨o.url, none⟩
  | some (.fields kv) => some ⟨o.url, some kv⟩
  | some .unappendable => none

/-- The upload target of a submission body: its `upload` object, if `job`,
`job.data` and `job.data.upload` are all present and the upload step can
build its form from the field mapping. -/
def uploadOf (d : SubmitData) : Option Upload :=
  (uploadObjectOf d).bind UploadObject.target

/-- Waits interleaved with status calls: each wait is followed by one status
call (in the encoding of `pollEvents`). -/
def alternation : List ℚ → List (Option ℚ)
  | [] => []
  | w :: ws => some w :: none :: alternation ws

/-- What the result of the loop says about the last status fetched, where
`job` is the status held on entry. -/
def LoopPost (job : Job) (e : List Event) (r : LoopEnd) : Prop :=
  match r with
  | .left j1 => (fetches e).getLast?.getD (some job) = some j1 ∧ ∀ x ∈ fetches e, x ≠ none
  | .exited => (fetches e).getLast?.getD (some job) = none
  | .running => ∃ j1, (fetches e).getLast?.getD (some job) = some j1 ∧
      j1.status ≠ "completed" ∧ j1.status ≠ "failed"

/-- What `run` does with the result of its loop, after the events `pre`. -/
def finish (pre : List Event) (r : List Event × LoopEnd) : Outcome :=
  match r with
  | (e4, .exited) => ⟨pre ++ e4, some 1⟩
  | (e4, .running) => ⟨pre ++ e4, none⟩
  | (e4, .left job) => ⟨pre ++ e4 ++ (report job).1, some (report job).2⟩

/-- The events of the submit and upload steps and of the first status call,
when all three succeed. -/
def preamble (env : Env) : List Event :=
  (updateTheme env).1 ++
    (uploadThemeFile env ((updateTheme env).2.bind fun t => t.uploadUrl)
      ((updateTheme env).2.bind fun t => t.uploadParameters)).1 ++
    (checkUpdateJobStatus (env.status 0)).1

/-! ## Unfolding the poll loop -/

theorem pollLoop_terminal (env : Env) (st : ℚ) (fuel : Nat) (job : Job)
    (iv : ℚ) (n : Nat) (ws : List ℚ)
    (h : job.status = "completed" ∨ job.status = "failed") :
    pollLoop env st fuel job iv n ws = ([], .left job) := by
  unfold pollLoop
  rcases h with h | h <;> simp [h]

theorem pollLoop_timeout (env : Env) (st : ℚ) (fuel : Nat) (job : Job)
    (iv : ℚ) (n : Nat) (ws : List ℚ)
    (h1 : job.status ≠ "completed") (h2 : job.status ≠ "failed")
    (ht : env.now n ws - st > MAX_WAIT_TIME) :
    pollLoop env st fuel job iv n ws = ([.append .timeout], .left job) := by
  unfold pollLoop
  simp [h1, h2, ht]

theorem pollLoop_zero (env : Env) (st : ℚ) (job : Job)
    (iv : ℚ) (n : Nat) (ws : List ℚ)
    (h1 : job.status ≠ "completed") (h2 : job.status ≠ "failed")
    (ht : ¬ env.now n ws - st > MAX_WAIT_TIME) :
    pollLoop env st 0 job iv n ws = ([], .running) := by
  unfold pollLoop
  rw [if_pos ⟨h1, h2⟩, if_neg ht]

theorem pollLoop_fetch_fails (env : Env) (st : ℚ) (fuel : Nat) (job : Job)
    (iv : ℚ) (n : Nat) (ws : List ℚ)
    (h1 : job.status ≠ "completed") (h2 : job.status ≠ "failed")
    (ht : ¬ env.now n ws - st > MAX_WAIT_TIME) (hs : env.status n = none) :
    pollLoop env st (fuel + 1) job iv n ws =
      ([.wait iv, .statusCall none, .append .statusError, .exit 1], .exited) := by
  unfold pollLoop
  rw [if_pos ⟨h1, h2⟩, if_neg ht]
  simp [hs, checkUpdateJobStatus]

theorem pollLoop_step (env : Env) (st : ℚ) (fuel : Nat) (job : Job)
    (iv : ℚ) (n : Nat) (ws : List ℚ) (job1 : Job)
    (h1 : job.status ≠ "completed") (h2 : job.status ≠ "failed")
    (ht : ¬ env.now n ws - st > MAX_WAIT_TIME) (hs : env.status n = some job1) :
    pollLoop env st (fuel + 1) job iv n ws =
      (.wait iv :: (checkUpdateJobStatus (some job1)).1 ++
          (pollLoop env st fuel job1 (nextInterval sourceConfig iv) (n + 1) (ws ++ [iv])).1,
        (pollLoop env st fuel job1 (nextInterval sourceConfig iv) (n + 1) (ws ++ [iv])).2) := by
  conv_lhs => unfold pollLoop
  rw [if_pos ⟨h1, h2⟩, if_neg ht, hs]
  by_cases hp : job1.status = "pending" <;>
    simp [checkUpdateJobStatus, hp, nextInterval, sourceConfig]

/-! ## Projections of the events of one status check -/

theorem waits_check (r : Option Job) : waits (checkUpdateJobStatus r).1 = [] := by
  cases r with
  | none => simp [checkUpdateJobStatus, waits]
  | some j => by_cases hp : j.status = "pending" <;> simp [checkUpdateJobStatus, waits, hp]

theorem fetches_check (r : Option Job) : fetches (checkUpdateJobStatus r).1 = [r] := by
  cases r with
  | none => simp [checkUpdateJobStatus, fetches]
  | some j => by_cases hp : j.status = "pending" <;> simp [checkUpdateJobStatus, fetches, hp]

theorem uploadCalls_check (r : Option Job) : uploadCalls (checkUpdateJobStatus r).1 = [] := by
  cases r with
  | none => simp [checkUpdateJobStatus, uploadCalls]
  | some j => by_cases hp : j.status = "pending" <;> simp [checkUpdateJobStatus, uploadCalls, hp]

theorem pollEvents_check (r : Option Job) : pollEvents (checkUpdateJobStatus r).1 = [none] := by
  cases r with
  | none => simp [checkUpdateJobStatus, pollEvents]
  | some j => by_cases hp : j.status = "pending" <;> simp [checkUpdateJobStatus, pollEvents, hp]

theorem records_check_pending (j : Job) (hp : j.status = "pending") :
    records (checkUpdateJobStatus (some j)).1 = [] := by
  simp [checkUpdateJobStatus, records, hp]

theorem records_check_other (j : Job) (hp : j.status ≠ "pending") :
    records (checkUpdateJobStatus (some j)).1 = [.statusResponse j] := by
  simp [checkUpdateJobStatus, records, hp]

theorem waits_append (a b : List Event) : waits (a ++ b) = waits a ++ waits b := by
  simp [waits]

theorem fetches_append (a b : List Event) : fetches (a ++ b) = fetches a ++ fetches b := by
  simp [fetches]

theorem records_append (a b : List Event) : records (a ++ b) = records a ++ records b := by
  simp [records]

theorem uploadCalls_append (a b : List Event) :
    uploadCalls (a ++ b) = uploadCalls a ++ uploadCalls b := by
  simp [uploadCalls]

theorem pollEvents_append (a b : List Event) :
    pollEvents (a ++ b) = pollEvents a ++ pollEvents b := by
  simp [pollEvents]

/-! ## A run of consecutive successful iterations -/

theorem waitList_length (cfg : Config) (m : Nat) (iv : ℚ) : (waitList cfg m iv).length = m := by
  induction m generalizing iv with
  | zero => rfl
  | succ m ih => simp [waitList, ih]

theorem waits_stepsTrace (cfg : Config) (env : Env) (m : Nat) (iv : ℚ) (n : Nat) :
    waits (stepsTrace cfg env m iv n) = waitList cfg m iv := by
  induction m generalizing iv n with
  | zero => rfl
  | succ m ih =>
    have h : waits (stepsTrace cfg env (m + 1) iv n) =
        iv :: (waits (checkUpdateJobStatus (env.status n)).1 ++
          waits (stepsTrace cfg env m (nextInterval cfg iv) (n + 1))) := by
      simp [stepsTrace, waits]
    rw [h, waits_check, ih]
    rfl

theorem fetches_stepsTrace (cfg : Config) (env : Env) (m : Nat) (iv : ℚ) (n : Nat) :
    fetches (stepsTrace cfg env m iv n) = (List.range' n m).map env.status := by
  induction m generalizing iv n with
  | zero => rfl
  | succ m ih =>
    have h : fetches (stepsTrace cfg env (m + 1) iv n) =
        fetches (checkUpdateJobStatus (env.status n)).1 ++
          fetches (stepsTrace cfg env m (nextInterval cfg iv) (n + 1)) := by
      simp [stepsTrace, fetches]
    rw [h, fetches_check, ih]
    simp [List.range'_succ]

theorem records_stepsTrace_pending (cfg : Config) (env : Env) (m : Nat) (iv : ℚ) (n : Nat)
    (h : ∀ i, i < m → ∃ j, env.status (n + i) = some j ∧ j.status = "pending") :
    records (stepsTrace cfg env m iv n) = [] := by
  induction m generalizing iv n with
  | zero => rfl
  | succ m ih =>
    have hr : records (stepsTrace cfg env (m + 1) iv n) =
        records (checkUpdateJobStatus (env.status n)).1 ++
          records (stepsTrace cfg env m (nextInterval cfg iv) (n + 1)) := by
      simp [stepsTrace, records]
    obtain ⟨j, hj, hp⟩ := h 0 (Nat.succ_pos m)
    rw [Nat.add_zero] at hj
    rw [hr, hj, records_check_pending j hp, ih]
    · rfl
    · intro i hi
      have := h (i + 1) (Nat.succ_lt_succ hi)
      rwa [show n + (i + 1) = n + 1 + i by omega] at this

theorem stepsTrace_succ_last (cfg : Config) (env : Env) (m : Nat) (iv : ℚ) (n : Nat) :
    stepsTrace cfg env (m + 1) iv n =
      stepsTrace cfg env m iv n ++
        (.wait ((nextInterval cfg)^[m] iv) :: (checkUpdateJobStatus (env.status (n + m))).1) := by
  induction m generalizing iv n with
  | zero => simp [stepsTrace]
  | succ m ih =>
    rw [stepsTrace, ih (nextInterval cfg iv) (n + 1)]
    simp [stepsTrace, show n + 1 + m = n + (m + 1) by omega]

theorem pollLoop_steps (env : Env) (st : ℚ) (J : Nat → Job) (fuel : Nat) :
    ∀ (m : Nat) (iv : ℚ) (p : Nat) (ws : List ℚ),
      (∀ i, i < m → env.status (p + 1 + i) = some (J (p + 1 + i))) →
      (∀ i, i < m → (J (p + i)).status ≠ "completed" ∧ (J (p + i)).status ≠ "failed") →
      (∀ i, i < m → ¬ env.now (p + 1 + i) (ws ++ waitList sourceConfig i iv) - st > MAX_WAIT_TIME) →
      pollLoop env st (fuel + m) (J p) iv (p + 1) ws =
        (stepsTrace sourceConfig env m iv (p + 1) ++
            (pollLoop env st fuel (J (p + m)) ((nextInterval sourceConfig)^[m] iv) (p + 1 + m)
              (ws ++ waitList sourceConfig m iv)).1,
          (pollLoop env st fuel (J (p + m)) ((nextInterval sourceConfig)^[m] iv) (p + 1 + m)
              (ws ++ waitList sourceConfig m iv)).2) := by
  intro m
  induction m with
  | zero =>
    intro iv p ws _ _ _
    simp [stepsTrace, waitList]
  | succ m ih =>
    intro iv p ws hs hJ ht
    have hs0 := hs 0 (Nat.succ_pos m)
    have hJ0 := hJ 0 (Nat.succ_pos m)
    have ht0 := ht 0 (Nat.succ_pos m)
    simp only [Nat.add_zero, waitList, List.append_nil] at hs0 hJ0 ht0
    rw [show fuel + (m + 1) = fuel + m + 1 by omega,
      pollLoop_step env st (fuel + m) (J p) iv (p + 1) ws (J (p + 1)) hJ0.1 hJ0.2 ht0 hs0,
      ih (nextInterval sourceConfig iv) (p + 1) (ws ++ [iv])]
    · simp [stepsTrace, hs0, waitList, show p + 1 + m = p + (m + 1) by omega,
        show p + 1 + 1 + m = p + 1 + (m + 1) by omega]
    · intro i hi
      have := hs (i + 1) (Nat.succ_lt_succ hi)
      rwa [show p + 1 + (i + 1) = p + 1 + 1 + i by omega] at this
    · intro i hi
      have := hJ (i + 1) (Nat.succ_lt_succ hi)
      rwa [show p + (i + 1) = p + 1 + i by omega] at this
    · intro i hi
      have := ht (i + 1) (Nat.succ_lt_succ hi)
      simp only [waitList] at this
      rwa [show p + 1 + (i + 1) = p + 1 + 1 + i by omega,
        show ws ++ iv :: waitList sourceConfig i (nextInterval sourceConfig iv) =
          ws ++ [iv] ++ waitList sourceConfig i (nextInterval sourceConfig iv) by simp] at this

/-! ## Composing the driver -/

theorem uploadObjectOf_eq_some (d : SubmitData) (o : UploadObject)
    (h : uploadObjectOf d = some o) :
    ∃ j jd, d.job = some j ∧ j.data = some jd ∧ jd.upload = some o := by
  unfold uploadObjectOf at h
  cases hj : d.job with
  | none => simp [hj] at h
  | some j =>
    cases hjd : j.data with
    | none => simp [hj, hjd] at h
    | some jd => exact ⟨j, jd, rfl, hjd, by simpa [hj, hjd] using h⟩

theorem target_eq_some (o : UploadObject) (u : Upload) (h : o.target = some u) :
    o.url = u.url ∧ o.parameters ≠ some .unappendable := by
  unfold UploadObject.target at h
  cases hp : o.parameters with
  | none =>
    rw [hp] at h
    simp only [Option.some.injEq] at h
    exact ⟨by rw [← h], by simp⟩
  | some m =>
    cases m with
    | fields kv =>
      rw [hp] at h
      simp only [Option.some.injEq] at h
      exact ⟨by rw [← h], by simp⟩
    | unappendable =>
      rw [hp] at h
      simp at h

theorem uploadOf_eq_some (d : SubmitData) (u : Upload) (h : uploadOf d = some u) :
    ∃ o, uploadObjectOf d = some o ∧ o.url = u.url ∧ o.parameters ≠ some .unappendable := by
  unfold uploadOf at h
  cases ho : uploadObjectOf d with
  | none => simp [ho] at h
  | some o =>
    rw [ho] at h
    exact ⟨o, rfl, target_eq_some o u h⟩

theorem updateTheme_ok (env : Env) (d : SubmitData) (u : Upload)
    (hsub : env.submit = some d) (hup : uploadOf d = some u) :
    ∃ id ps, ps ≠ some FieldMapping.unappendable ∧ updateTheme env =
      ([.submitCall, .append (.updateThemeResponse d)], some ⟨id, u.url, ps⟩) := by
  obtain ⟨o, ho, hurl, hps⟩ := uploadOf_eq_some d u hup
  obtain ⟨j, jd, hj, hjd, hu⟩ := uploadObjectOf_eq_some d o ho
  exact ⟨j.id, o.parameters, hps, by simp [updateTheme, hsub, hj, hjd, hu, hurl]⟩

theorem uploadThemeFile_ok (env : Env) (url : Option String) (ps : Option FieldMapping)
    (hps : ps ≠ some FieldMapping.unappendable) (hupl : env.upload url = true) :
    uploadThemeFile env url ps = ([.uploadCall url, .append .uploadResponse], .returned) := by
  unfold uploadThemeFile
  rw [if_neg hps, if_pos hupl]

theorem preamble_ok (env : Env) (d : SubmitData) (u : Upload) (j0 : Job)
    (hsub : env.submit = some d) (hup : uploadOf d = some u)
    (hupl : env.upload u.url = true) (h0 : env.status 0 = some j0) :
    preamble env =
      [.submitCall, .append (.updateThemeResponse d), .uploadCall u.url, .append .uploadResponse] ++
        (checkUpdateJobStatus (some j0)).1 := by
  obtain ⟨id, ps, hps, hid⟩ := updateTheme_ok env d u hsub hup
  simp [preamble, hid, uploadThemeFile_ok env u.url ps hps hupl, h0]

theorem run_ok (fuel : Nat) (env : Env) (d : SubmitData) (u : Upload)
    (j0 : Job) (hsub : env.submit = some d) (hup : uploadOf d = some u)
    (hupl : env.upload u.url = true) (h0 : env.status 0 = some j0) :
    run fuel env =
      finish (preamble env)
        (pollLoop env (env.now 0 []) fuel j0 5000 1 []) := by
  obtain ⟨id, ps, hps, hid⟩ := updateTheme_ok env d u hsub hup
  have hc : checkUpdateJobStatus (some j0) =
      ((checkUpdateJobStatus (some j0)).1, some j0) := by
    by_cases hp : j0.status = "pending" <;> simp [checkUpdateJobStatus, hp]
  rw [preamble_ok env d u j0 hsub hup hupl h0]
  unfold run
  rw [hid]
  simp only [uploadThemeFile_ok env u.url ps hps hupl, h0]
  rw [hc]
  simp only []
  generalize pollLoop env (env.now 0 []) fuel j0 5000 1 [] = r
  obtain ⟨e4, r2⟩ := r
  cases r2 <;> simp [finish]

theorem finish_append (pre a e : List Event) (r : LoopEnd) :
    finish pre (a ++ e, r) = finish (pre ++ a) (e, r) := by
  cases r <;> simp [finish]

theorem run_steps (env : Env) (J : Nat → Job) (m fuel : Nat)
    (d : SubmitData) (u : Upload)
    (hsub : env.submit = some d) (hup : uploadOf d = some u)
    (hupl : env.upload u.url = true)
    (hs : ∀ i, i ≤ m → env.status i = some (J i))
    (hJ : ∀ i, i < m → (J i).status ≠ "completed" ∧ (J i).status ≠ "failed")
    (ht : ∀ i, i < m →
      ¬ env.now (i + 1) (waitList sourceConfig i 5000) - env.now 0 [] > MAX_WAIT_TIME) :
    run (fuel + m) env =
      finish (preamble env ++ stepsTrace sourceConfig env m 5000 1)
        (pollLoop env (env.now 0 []) fuel (J m)
          ((nextInterval sourceConfig)^[m] 5000) (m + 1)
          (waitList sourceConfig m 5000)) := by
  rw [run_ok (fuel + m) env d u (J 0) hsub hup hupl (hs 0 (Nat.zero_le m))]
  have h := pollLoop_steps env (env.now 0 []) J fuel m 5000 0 []
    (fun i hi => by simpa [Nat.add_comm] using hs (i + 1) hi)
    (fun i hi => by simpa using hJ i hi)
    (fun i hi => by simpa [Nat.add_comm] using ht i hi)
  simp only [Nat.zero_add, List.nil_append] at h
  rw [h, finish_append, Nat.add_comm 1 m]

theorem run_ends (env : Env) (J : Nat → Job) (m fuel : Nat)
    (d : SubmitData) (u : Upload)
    (hsub : env.submit = some d) (hup : uploadOf d = some u)
    (hupl : env.upload u.url = true)
    (hs : ∀ i, i ≤ m → env.status i = some (J i))
    (hJ : ∀ i, i < m → (J i).status ≠ "completed" ∧ (J i).status ≠ "failed")
    (ht : ∀ i, i < m →
      ¬ env.now (i + 1) (waitList sourceConfig i 5000) - env.now 0 [] > MAX_WAIT_TIME)
    (hend : (J m).status = "completed" ∨ (J m).status = "failed") (hfuel : m ≤ fuel) :
    run fuel env =
      ⟨preamble env ++ stepsTrace sourceConfig env m 5000 1 ++ (report (J m)).1,
        some (report (J m)).2⟩ := by
  obtain ⟨f, rfl⟩ := Nat.exists_eq_add_of_le hfuel
  rw [Nat.add_comm m f, run_steps env J m f d u hsub hup hupl hs hJ ht,
    pollLoop_terminal _ _ _ _ _ _ _ hend]
  simp [finish]

theorem run_times_out (env : Env) (J : Nat → Job) (m fuel : Nat)
    (d : SubmitData) (u : Upload)
    (hsub : env.submit = some d) (hup : uploadOf d = some u)
    (hupl : env.upload u.url = true)
    (hs : ∀ i, i ≤ m → env.status i = some (J i))
    (hJ : ∀ i, i ≤ m → (J i).status ≠ "completed" ∧ (J i).status ≠ "failed")
    (ht : ∀ i, i < m →
      ¬ env.now (i + 1) (waitList sourceConfig i 5000) - env.now 0 [] > MAX_WAIT_TIME)
    (hlate : env.now (m + 1) (waitList sourceConfig m 5000) - env.now 0 [] > MAX_WAIT_TIME)
    (hfuel : m ≤ fuel) :
    run fuel env =
      ⟨preamble env ++ stepsTrace sourceConfig env m 5000 1 ++
          [.append .timeout, .append (.unexpectedState (J m).status), .exit 1],
        some 1⟩ := by
  obtain ⟨f, rfl⟩ := Nat.exists_eq_add_of_le hfuel
  have hm := hJ m (Nat.le_refl m)
  rw [Nat.add_comm m f,
    run_steps env J m f d u hsub hup hupl hs (fun i hi => hJ i (Nat.le_of_lt hi)) ht,
    pollLoop_timeout _ _ _ _ _ _ _ hm.1 hm.2 hlate]
  simp [finish, report, hm.1, hm.2]

/-! ## The schedule of the source constants -/

theorem nextInterval_source (iv : ℚ) : nextInterval sourceConfig iv = min (iv * (3 / 2)) 60000 :=
  rfl

theorem waitList_source_ten :
    waitList sourceConfig 10 5000 =
      [5000, 7500, 11250, 16875, 50625 / 2, 151875 / 4, 455625 / 8, 60000, 60000, 60000] := by
  norm_num [waitList, nextInterval_source]

theorem waitList_succ_take (cfg : Config) (m : Nat) (iv : ℚ) :
    (waitList cfg (m + 1) iv).take m = waitList cfg m iv := by
  induction m generalizing iv with
  | zero => rfl
  | succ m ih =>
    rw [waitList, List.take_succ_cons, ih, waitList]

theorem waitList_take (cfg : Config) (k m : Nat) (iv : ℚ) (h : m ≤ k) :
    (waitList cfg k iv).take m = waitList cfg m iv := by
  induction k with
  | zero =>
    have : m = 0 := Nat.le_zero.mp h
    subst this
    rfl
  | succ k ih =>
    rcases Nat.eq_or_lt_of_le h with h1 | h1
    · subst h1
      have := waitList_length cfg (k + 1) iv
      exact List.take_of_length_le (Nat.le_of_eq this)
    · have hk : m ≤ k := Nat.lt_succ_iff.mp h1
      rw [← ih hk, ← waitList_succ_take cfg k iv, List.take_take, Nat.min_eq_left hk]

theorem source_waits_within_deadline (i : Nat) (hi : i < 10) :
    ¬ (waitList sourceConfig i 5000).sum > MAX_WAIT_TIME := by
  rw [← waitList_take sourceConfig 10 i 5000 (Nat.le_of_lt hi), waitList_source_ten]
  interval_cases i <;> norm_num [MAX_WAIT_TIME]

theorem source_waits_past_deadline :
    (waitList sourceConfig 10 5000).sum = 2726875 / 8 ∧
      (waitList sourceConfig 10 5000).sum > MAX_WAIT_TIME := by
  rw [waitList_source_ten]
  norm_num [MAX_WAIT_TIME]

/-! ## Induction over the poll loop -/

theorem pollLoop_induct (env : Env) (st : ℚ)
    (P : Job → ℚ → Nat → List ℚ → List Event × LoopEnd → Prop)
    (hterminal : ∀ job iv n ws, (job.status = "completed" ∨ job.status = "failed") →
      P job iv n ws ([], .left job))
    (htimeout : ∀ job iv n ws, job.status ≠ "completed" → job.status ≠ "failed" →
      env.now n ws - st > MAX_WAIT_TIME → P job iv n ws ([.append .timeout], .left job))
    (hzero : ∀ job iv n ws, job.status ≠ "completed" → job.status ≠ "failed" →
      ¬ env.now n ws - st > MAX_WAIT_TIME → P job iv n ws ([], .running))
    (hfail : ∀ job iv n ws, job.status ≠ "completed" → job.status ≠ "failed" →
      ¬ env.now n ws - st > MAX_WAIT_TIME → env.status n = none →
      P job iv n ws ([.wait iv, .statusCall none, .append .statusError, .exit 1], .exited))
    (hstep : ∀ job iv n ws job1 rest, job.status ≠ "completed" → job.status ≠ "failed" →
      ¬ env.now n ws - st > MAX_WAIT_TIME → env.status n = some job1 →
      P job1 (nextInterval sourceConfig iv) (n + 1) (ws ++ [iv]) rest →
      P job iv n ws (.wait iv :: (checkUpdateJobStatus (some job1)).1 ++ rest.1, rest.2)) :
    ∀ fuel job iv n ws, P job iv n ws (pollLoop env st fuel job iv n ws) := by
  intro fuel
  induction fuel with
  | zero =>
    intro job iv n ws
    by_cases h1 : job.status = "completed"
    · rw [pollLoop_terminal _ _ _ _ _ _ _ (Or.inl h1)]
      exact hterminal job iv n ws (Or.inl h1)
    by_cases h2 : job.status = "failed"
    · rw [pollLoop_terminal _ _ _ _ _ _ _ (Or.inr h2)]
      exact hterminal job iv n ws (Or.inr h2)
    by_cases ht : env.now n ws - st > MAX_WAIT_TIME
    · rw [pollLoop_timeout _ _ _ _ _ _ _ h1 h2 ht]
      exact htimeout job iv n ws h1 h2 ht
    · rw [pollLoop_zero _ _ _ _ _ _ h1 h2 ht]
      exact hzero job iv n ws h1 h2 ht
  | succ fuel ih =>
    intro job iv n ws
    by_cases h1 : job.status = "completed"
    · rw [pollLoop_terminal _ _ _ _ _ _ _ (Or.inl h1)]
      exact hterminal job iv n ws (Or.inl h1)
    by_cases h2 : job.status = "failed"
    · rw [pollLoop_terminal _ _ _ _ _ _ _ (Or.inr h2)]
      exact hterminal job iv n ws (Or.inr h2)
    by_cases ht : env.now n ws - st > MAX_WAIT_TIME
    · rw [pollLoop_timeout _ _ _ _ _ _ _ h1 h2 ht]
      exact htimeout job iv n ws h1 h2 ht
    cases hs : env.status n with
    | none =>
      rw [pollLoop_fetch_fails _ _ _ _ _ _ _ h1 h2 ht hs]
      exact hfail job iv n ws h1 h2 ht hs
    | some job1 =>
      rw [pollLoop_step _ _ _ _ _ _ _ job1 h1 h2 ht hs]
      exact hstep job iv n ws job1 _ h1 h2 ht hs (ih job1 _ _ _)

theorem fetches_step (iv : ℚ) (job1 : Job) (rest : List Event) :
    fetches (.wait iv :: (checkUpdateJobStatus (some job1)).1 ++ rest) =
      some job1 :: fetches rest := by
  have h : fetches (.wait iv :: (checkUpdateJobStatus (some job1)).1 ++ rest) =
      fetches (checkUpdateJobStatus (some job1)).1 ++ fetches rest := by
    simp [fetches]
  rw [h, fetches_check]
  rfl

theorem waits_step (iv : ℚ) (job1 : Job) (rest : List Event) :
    waits (.wait iv :: (checkUpdateJobStatus (some job1)).1 ++ rest) = iv :: waits rest := by
  have h : waits (.wait iv :: (checkUpdateJobStatus (some job1)).1 ++ rest) =
      iv :: (waits (checkUpdateJobStatus (some job1)).1 ++ waits rest) := by
    simp [waits]
  rw [h, waits_check]
  rfl

theorem pollEvents_step (iv : ℚ) (job1 : Job) (rest : List Event) :
    pollEvents (.wait iv :: (checkUpdateJobStatus (some job1)).1 ++ rest) =
      some iv :: none :: pollEvents rest := by
  have h : pollEvents (.wait iv :: (checkUpdateJobStatus (some job1)).1 ++ rest) =
      some iv :: (pollEvents (checkUpdateJobStatus (some job1)).1 ++ pollEvents rest) := by
    simp [pollEvents]
  rw [h, pollEvents_check]
  rfl

theorem pollLoop_post (env : Env) (st : ℚ) :
    ∀ fuel job iv n ws,
      LoopPost job (pollLoop env st fuel job iv n ws).1
        (pollLoop env st fuel job iv n ws).2 := by
  apply pollLoop_induct env st (fun job _ _ _ r => LoopPost job r.1 r.2)
  · intro job _ _ _ _
    simp [LoopPost, fetches]
  · intro job _ _ _ _ _ _
    simp [LoopPost, fetches]
  · intro job _ _ _ h1 h2 _
    exact ⟨job, by simp [fetches], h1, h2⟩
  · intro job _ _ _ _ _ _ _
    simp [LoopPost, fetches]
  · intro job iv n ws job1 rest _ _ _ _ ih
    obtain ⟨e, r⟩ := rest
    simp only [] at ih ⊢
    cases r with
    | left j1 =>
      simp only [LoopPost, fetches_step, List.getLast?_cons, Option.getD_some] at ih ⊢
      refine ⟨ih.1, ?_⟩
      intro x hx
      rcases List.mem_cons.mp hx with hx | hx
      · simp [hx]
      · exact ih.2 x hx
    | exited =>
      simp only [LoopPost, fetches_step, List.getLast?_cons, Option.getD_some] at ih ⊢
      exact ih
    | running =>
      simp only [LoopPost, fetches_step, List.getLast?_cons, Option.getD_some] at ih ⊢
      exact ih

theorem pollLoop_waits (env : Env) (st : ℚ) :
    ∀ fuel job iv n ws,
      ∃ k, waits (pollLoop env st fuel job iv n ws).1 = waitList sourceConfig k iv := by
  apply pollLoop_induct env st (fun _ iv _ _ r => ∃ k, waits r.1 = waitList sourceConfig k iv)
  · intro _ _ _ _ _
    exact ⟨0, rfl⟩
  · intro _ _ _ _ _ _ _
    exact ⟨0, rfl⟩
  · intro _ _ _ _ _ _ _
    exact ⟨0, rfl⟩
  · intro _ iv _ _ _ _ _ _
    exact ⟨1, rfl⟩
  · intro _ iv _ _ job1 rest _ _ _ _ ih
    obtain ⟨k, hk⟩ := ih
    exact ⟨k + 1, by rw [waits_step, hk, waitList]⟩

theorem pollLoop_pollEvents (env : Env) (st : ℚ) :
    ∀ fuel job iv n ws,
      pollEvents (pollLoop env st fuel job iv n ws).1 =
        alternation (waits (pollLoop env st fuel job iv n ws).1) := by
  apply pollLoop_induct env st (fun _ _ _ _ r => pollEvents r.1 = alternation (waits r.1))
  · intro _ _ _ _ _
    rfl
  · intro _ _ _ _ _ _ _
    rfl
  · intro _ _ _ _ _ _ _
    rfl
  · intro _ iv _ _ _ _ _ _
    rfl
  · intro _ iv _ _ job1 rest _ _ _ _ ih
    simp only [] at ih ⊢
    rw [waits_step, pollEvents_step, ih, alternation]

theorem pollLoop_records (env : Env) (st : ℚ) :
    ∀ fuel job iv n ws, ∀ x ∈ records (pollLoop env st fuel job iv n ws).1,
      ∀ errs, x ≠ .jobFailed errs := by
  apply pollLoop_induct env st
    (fun _ _ _ _ r => ∀ x ∈ records r.1, ∀ errs, x ≠ .jobFailed errs)
  · intro _ _ _ _ _ x hx
    simp [records] at hx
  · intro _ _ _ _ _ _ _ x hx
    simp [records] at hx
    simp [hx]
  · intro _ _ _ _ _ _ _ x hx
    simp [records] at hx
  · intro _ iv _ _ _ _ _ _ x hx
    simp [records] at hx
    simp [hx]
  · intro _ iv _ _ job1 rest _ _ _ _ ih x hx
    have h : records (.wait iv :: (checkUpdateJobStatus (some job1)).1 ++ rest.1) =
        records (checkUpdateJobStatus (some job1)).1 ++ records rest.1 := by
      simp [records]
    rw [h, List.mem_append] at hx
    rcases hx with hx | hx
    · by_cases hp : job1.status = "pending"
      · rw [records_check_pending job1 hp] at hx
        simp at hx
      · rw [records_check_other job1 hp] at hx
        simp at hx
        simp [hx]
    · exact ih x hx

theorem pollLoop_uploadCalls (env : Env) (st : ℚ) :
    ∀ fuel job iv n ws, uploadCalls (pollLoop env st fuel job iv n ws).1 = [] := by
  apply pollLoop_induct env st (fun _ _ _ _ r => uploadCalls r.1 = [])
  · intro _ _ _ _ _
    rfl
  · intro _ _ _ _ _ _ _
    rfl
  · intro _ _ _ _ _ _ _
    rfl
  · intro _ iv _ _ _ _ _ _
    rfl
  · intro _ iv _ _ job1 rest _ _ _ _ ih
    have h : uploadCalls (.wait iv :: (checkUpdateJobStatus (some job1)).1 ++ rest.1) =
        uploadCalls (checkUpdateJobStatus (some job1)).1 ++ uploadCalls rest.1 := by
      simp [uploadCalls]
    rw [h, uploadCalls_check, ih]
    rfl

/-! ## The ways `run` can end before its loop -/

theorem run_cases (fuel : Nat) (env : Env) :
    (env.submit = none ∧
      run fuel env = ⟨[.submitCall, .append .updateThemeError, .exit 1], some 1⟩) ∨
    (∃ d, env.submit = some d ∧ uploadObjectOf d = none ∧
      run fuel env =
        ⟨[.submitCall, .append (.updateThemeResponse d), .append .updateThemeError, .exit 1],
          some 1⟩) ∨
    (∃ d o, env.submit = some d ∧ uploadObjectOf d = some o ∧
      o.parameters = some .unappendable ∧
      run fuel env = ⟨[.submitCall, .append (.updateThemeResponse d), .exit 1], some 1⟩) ∨
    (∃ d u, env.submit = some d ∧ uploadOf d = some u ∧ env.upload u.url = false ∧
      run fuel env =
        ⟨[.submitCall, .append (.updateThemeResponse d), .uploadCall u.url,
            .append .uploadError, .exit 1], some 1⟩) ∨
    (∃ d u, env.submit = some d ∧ uploadOf d = some u ∧ env.upload u.url = true ∧
      env.status 0 = none ∧
      run fuel env =
        ⟨[.submitCall, .append (.updateThemeResponse d), .uploadCall u.url,
            .append .uploadResponse, .statusCall none, .append .statusError, .exit 1],
          some 1⟩) ∨
    (∃ d u j0, env.submit = some d ∧ uploadOf d = some u ∧ env.upload u.url = true ∧
      env.status 0 = some j0) := by
  cases hsub : env.submit with
  | none =>
    left
    exact ⟨rfl, by simp [run, updateTheme, hsub]⟩
  | some d =>
    right
    cases hj : d.job with
    | none =>
      left
      exact ⟨d, rfl, by simp [uploadObjectOf, hj], by simp [run, updateTheme, hsub, hj]⟩
    | some j =>
      cases hjd : j.data with
      | none =>
        left
        exact ⟨d, rfl, by simp [uploadObjectOf, hj, hjd],
          by simp [run, updateTheme, hsub, hj, hjd]⟩
      | some jd =>
        cases hu : jd.upload with
        | none =>
          left
          exact ⟨d, rfl, by simp [uploadObjectOf, hj, hjd, hu],
            by simp [run, updateTheme, hsub, hj, hjd, hu]⟩
        | some o =>
          right
          have hobj : uploadObjectOf d = some o := by simp [uploadObjectOf, hj, hjd, hu]
          cases ht : o.target with
          | none =>
            left
            have hps : o.parameters = some .unappendable := by
              unfold UploadObject.target at ht
              cases hp : o.parameters with
              | none => simp [hp] at ht
              | some m =>
                cases m with
                | fields kv => simp [hp] at ht
                | unappendable => rfl
            exact ⟨d, o, rfl, hobj, hps,
              by simp [run, updateTheme, hsub, hj, hjd, hu, uploadThemeFile, hps]⟩
          | some u =>
            right
            have hup : uploadOf d = some u := by simp [uploadOf, hobj, ht]
            obtain ⟨hurl, hps⟩ := target_eq_some o u ht
            cases hupl : env.upload u.url with
            | false =>
              left
              exact ⟨d, u, rfl, hup, hupl,
                by simp [run, updateTheme, hsub, hj, hjd, hu, uploadThemeFile, hps, hupl, hurl]⟩
            | true =>
              right
              cases h0 : env.status 0 with
              | none =>
                left
                exact ⟨d, u, rfl, hup, hupl, rfl,
                  by simp [run, updateTheme, hsub, hj, hjd, hu, uploadThemeFile, hps, hupl,
                    hurl, h0, checkUpdateJobStatus]⟩
              | some j0 =>
                right
                exact ⟨d, u, j0, rfl, hup, hupl, rfl⟩

/-! ## Termination of the loop -/

theorem pollLoop_not_running (env : Env) (st : ℚ) :
    ∀ (k fuel : Nat) (job : Job) (iv : ℚ) (n : Nat) (ws : List ℚ),
      env.now (n + k) (ws ++ waitList sourceConfig k iv) - st > MAX_WAIT_TIME → k ≤ fuel →
      (pollLoop env st fuel job iv n ws).2 ≠ .running := by
  intro k
  induction k with
  | zero =>
    intro fuel job iv n ws hlate _
    simp only [Nat.add_zero, waitList, List.append_nil] at hlate
    by_cases h1 : job.status = "completed"
    · rw [pollLoop_terminal _ _ _ _ _ _ _ (Or.inl h1)]
      simp
    by_cases h2 : job.status = "failed"
    · rw [pollLoop_terminal _ _ _ _ _ _ _ (Or.inr h2)]
      simp
    rw [pollLoop_timeout _ _ _ _ _ _ _ h1 h2 hlate]
    simp
  | succ k ih =>
    intro fuel job iv n ws hlate hfuel
    obtain ⟨f, rfl⟩ : ∃ f, fuel = f + 1 := ⟨fuel - 1, by omega⟩
    by_cases h1 : job.status = "completed"
    · rw [pollLoop_terminal _ _ _ _ _ _ _ (Or.inl h1)]
      simp
    by_cases h2 : job.status = "failed"
    · rw [pollLoop_terminal _ _ _ _ _ _ _ (Or.inr h2)]
      simp
    by_cases ht : env.now n ws - st > MAX_WAIT_TIME
    · rw [pollLoop_timeout _ _ _ _ _ _ _ h1 h2 ht]
      simp
    cases hs : env.status n with
    | none =>
      rw [pollLoop_fetch_fails _ _ _ _ _ _ _ h1 h2 ht hs]
      simp
    | some job1 =>
      rw [pollLoop_step _ _ _ _ _ _ _ job1 h1 h2 ht hs]
      apply ih f job1 (nextInterval sourceConfig iv) (n + 1) (ws ++ [iv])
      · simp only [waitList] at hlate
        rwa [show n + 1 + k = n + (k + 1) by omega,
          show ws ++ [iv] ++ waitList sourceConfig k (nextInterval sourceConfig iv) =
            ws ++ iv :: waitList sourceConfig k (nextInterval sourceConfig iv) by simp]
      · omega

/-! ## Projections, event by event -/

theorem waits_cons (e : Event) (t : List Event) :
    waits (e :: t) = (match e with | .wait ms => [ms] | _ => []) ++ waits t := by
  cases e <;> rfl

theorem fetches_cons (e : Event) (t : List Event) :
    fetches (e :: t) = (match e with | .statusCall r => [r] | _ => []) ++ fetches t := by
  cases e <;> rfl

theorem records_cons (e : Event) (t : List Event) :
    records (e :: t) = (match e with | .append r => [r] | _ => []) ++ records t := by
  cases e <;> rfl

theorem uploadCalls_cons (e : Event) (t : List Event) :
    uploadCalls (e :: t) = (match e with | .uploadCall u => [u] | _ => []) ++ uploadCalls t := by
  cases e <;> rfl

theorem pollEvents_cons (e : Event) (t : List Event) :
    pollEvents (e :: t) =
      (match e with | .statusCall _ => [none] | .wait ms => [some ms] | _ => []) ++
        pollEvents t := by
  cases e <;> rfl

theorem waits_nil : waits [] = [] := rfl

theorem fetches_nil : fetches [] = [] := rfl

theorem records_nil : records [] = [] := rfl

theorem uploadCalls_nil : uploadCalls [] = [] := rfl

theorem pollEvents_nil : pollEvents [] = [] := rfl

theorem waits_report (j : Job) : waits (report j).1 = [] := by
  unfold report
  split_ifs <;> rfl

theorem fetches_report (j : Job) : fetches (report j).1 = [] := by
  unfold report
  split_ifs <;> rfl

theorem uploadCalls_report (j : Job) : uploadCalls (report j).1 = [] := by
  unfold report
  split_ifs <;> rfl

theorem pollEvents_report (j : Job) : pollEvents (report j).1 = [] := by
  unfold report
  split_ifs <;> rfl

/-! ## Closed form of the backoff -/

theorem scaled_pow_le_cap (I0 g C : ℚ) (hcap : I0 ≤ C) (hg : 0 ≤ g) (hshrink : C * g < C)
    (i : Nat) : I0 * g ^ i ≤ C := by
  rcases lt_trichotomy C 0 with hC | hC | hC
  · have hg1 : 1 ≤ g := by
      by_contra hlt
      push_neg at hlt
      nlinarith
    have hp : 1 ≤ g ^ i := one_le_pow₀ hg1
    nlinarith
  · subst hC
    simp at hshrink
  · have hg1 : g ≤ 1 := by
      by_contra hlt
      push_neg at hlt
      nlinarith
    have hp : g ^ i ≤ 1 := pow_le_one₀ hg hg1
    have hp0 : 0 ≤ g ^ i := pow_nonneg hg i
    rcases le_total I0 0 with hI | hI
    · nlinarith [mul_nonneg (neg_nonneg.mpr hI) hp0]
    · nlinarith [mul_le_mul_of_nonneg_left hp hI]

theorem iterate_nextInterval (cfg : Config) (hcap : cfg.initialInterval ≤ cfg.cap)
    (hg : 0 ≤ cfg.growth) (i : Nat) :
    (nextInterval cfg)^[i] cfg.initialInterval =
      min (cfg.initialInterval * cfg.growth ^ i) cfg.cap := by
  induction i with
  | zero => simp [min_eq_left hcap]
  | succ i ih =>
    rw [Function.iterate_succ_apply', ih, nextInterval, pow_succ, ← mul_assoc]
    rcases le_total (cfg.initialInterval * cfg.growth ^ i) cfg.cap with h | h
    · rw [min_eq_left h]
    · rw [min_eq_right h]
      have hmul : cfg.cap * cfg.growth ≤ cfg.initialInterval * cfg.growth ^ i * cfg.growth :=
        mul_le_mul_of_nonneg_right h hg
      rcases le_or_lt cfg.cap (cfg.cap * cfg.growth) with hc | hc
      · rw [min_eq_right hc, min_eq_right (le_trans hc hmul)]
      · have heq : cfg.initialInterval * cfg.growth ^ i = cfg.cap :=
          le_antisymm (scaled_pow_le_cap _ _ _ hcap hg hc i) h
        rw [heq]

theorem waitList_getElem? (cfg : Config) :
    ∀ (k : Nat) (iv : ℚ) (i : Nat) (w : ℚ),
      (waitList cfg k iv)[i]? = some w → w = (nextInterval cfg)^[i] iv := by
  intro k
  induction k with
  | zero =>
    intro iv i w h
    simp [waitList] at h
  | succ k ih =>
    intro iv i w h
    cases i with
    | zero =>
      simp [waitList] at h
      simp [h]
    | succ i =>
      rw [waitList, List.getElem?_cons_succ] at h
      rw [Function.iterate_succ_apply]
      exact ih _ i w h

theorem waits_run (fuel : Nat) (env : Env) :
    ∃ k, waits (run fuel env).trace = waitList sourceConfig k 5000 := by
  rcases run_cases fuel env with
    ⟨_, h⟩ | ⟨d, _, _, h⟩ | ⟨d, o, _, _, _, h⟩ | ⟨d, u, _, _, _, h⟩ | ⟨d, u, _, _, _, _, h⟩ |
      ⟨d, u, j0, hsub, hup, hupl, h0⟩
  · exact ⟨0, by rw [h]; rfl⟩
  · exact ⟨0, by rw [h]; rfl⟩
  · exact ⟨0, by rw [h]; rfl⟩
  · exact ⟨0, by rw [h]; rfl⟩
  · exact ⟨0, by rw [h]; rfl⟩
  · rw [run_ok fuel env d u j0 hsub hup hupl h0,
      preamble_ok env d u j0 hsub hup hupl h0]
    obtain ⟨k, hk⟩ := pollLoop_waits env (env.now 0 []) fuel j0 5000 1 []
    refine ⟨k, ?_⟩
    generalize pollLoop env (env.now 0 []) fuel j0 5000 1 [] = r at hk
    obtain ⟨e4, r2⟩ := r
    cases r2 <;>
      simpa [finish, waits_append, waits_cons, waits_nil, waits_check, waits_report] using hk

/-! ## Runs in which no status is terminal, under the simulated clock -/

theorem run_all_active (env : Env) (d : SubmitData) (u : Upload) (t0 : ℚ) (fuel : Nat)
    (hsub : env.submit = some d) (hup : uploadOf d = some u)
    (hupl : env.upload u.url = true) (hclock : env.now = simulatedClock t0)
    (hs : ∀ i, ∃ j, env.status i = some j ∧ j.status ≠ "completed" ∧ j.status ≠ "failed")
    (hfuel : 10 ≤ fuel) :
    ∃ j, env.status 10 = some j ∧
      run fuel env =
        ⟨preamble env ++ stepsTrace sourceConfig env 10 5000 1 ++
            [.append .timeout, .append (.unexpectedState j.status), .exit 1],
          some 1⟩ := by
  have hJ : ∀ i, env.status i = some ((env.status i).getD pendingJob) := by
    intro i
    obtain ⟨j, hj, _⟩ := hs i
    simp [hj]
  have hA : ∀ i, ((env.status i).getD pendingJob).status ≠ "completed" ∧
      ((env.status i).getD pendingJob).status ≠ "failed" := by
    intro i
    obtain ⟨j, hj, h1, h2⟩ := hs i
    simp [hj, h1, h2]
  refine ⟨(env.status 10).getD pendingJob, hJ 10, ?_⟩
  have h := run_times_out env (fun i => (env.status i).getD pendingJob) 10 fuel
    d u hsub hup hupl (fun i _ => hJ i) (fun i _ => hA i)
    (fun i hi => by
      have := source_waits_within_deadline i hi
      simpa [hclock, simulatedClock, sourceConfig] using this)
    (by
      have := source_waits_past_deadline.2
      simpa [hclock, simulatedClock, sourceConfig] using this)
    hfuel
  exact h

theorem preamble_simEnv (status : Nat → Option Job) (j0 : Job) (h0 : status 0 = some j0) :
    preamble (simEnv status) =
      [.submitCall, .append (.updateThemeResponse okSubmit),
        .uploadCall (some "https://uploads.example/put"), .append .uploadResponse] ++
        (checkUpdateJobStatus (some j0)).1 :=
  preamble_ok (simEnv status) okSubmit ⟨some "https://uploads.example/put", some [("key", "value")]⟩
    j0 rfl rfl rfl h0

theorem run_all_pending (fuel : Nat) (hfuel : 10 ≤ fuel) :
    run fuel (simEnv fun _ => some pendingJob) =
      ⟨preamble (simEnv fun _ => some pendingJob) ++
          stepsTrace sourceConfig (simEnv fun _ => some pendingJob) 10 5000 1 ++
          [.append .timeout, .append (.unexpectedState "pending"), .exit 1],
        some 1⟩ := by
  obtain ⟨j, hj, h⟩ := run_all_active (simEnv fun _ => some pendingJob) okSubmit
    ⟨some "https://uploads.example/put", some [("key", "value")]⟩ 0 fuel rfl rfl rfl rfl
    (fun _ => ⟨pendingJob, rfl, by decide, by decide⟩) hfuel
  have hj' : j = pendingJob := by
    have : some pendingJob = some j := hj
    exact (Option.some.inj this).symm
  subst hj'
  exact h

theorem waits_timeout_trace (env : Env) (d : SubmitData) (u : Upload) (j0 : Job) (s : String)
    (hsub : env.submit = some d) (hup : uploadOf d = some u)
    (hupl : env.upload u.url = true) (h0 : env.status 0 = some j0) :
    waits (preamble env ++ stepsTrace sourceConfig env 10 5000 1 ++
        [.append .timeout, .append (.unexpectedState s), .exit 1]) =
      [5000, 7500, 11250, 16875, 50625 / 2, 151875 / 4, 455625 / 8, 60000, 60000, 60000] := by
  rw [preamble_ok env d u j0 hsub hup hupl h0]
  simp only [waits_append, waits_cons, waits_nil, waits_check, waits_stepsTrace,
    List.nil_append, List.append_nil]
  exact waitList_source_ten

/-! ## Summary blocks of consecutive iterations -/

theorem records_stepsTrace_mem (cfg : Config) (env : Env) (m : Nat) (iv : ℚ) (n : Nat) :
    ∀ x ∈ records (stepsTrace cfg env m iv n), x = .statusError ∨ ∃ j, x = .statusResponse j := by
  induction m generalizing iv n with
  | zero =>
    intro x hx
    simp [stepsTrace, records] at hx
  | succ m ih =>
    intro x hx
    rw [stepsTrace, List.cons_append, records_cons, records_append] at hx
    simp only [List.nil_append, List.mem_append] at hx
    rcases hx with hx | hx
    · cases hs : env.status n with
      | none =>
        rw [hs] at hx
        simp [checkUpdateJobStatus, records] at hx
        exact Or.inl hx
      | some j =>
        rw [hs] at hx
        by_cases hp : j.status = "pending"
        · rw [records_check_pending j hp] at hx
          simp at hx
        · rw [records_check_other j hp] at hx
          simp at hx
          exact Or.inr ⟨j, hx⟩
    · exact ih _ _ x hx

/-! ## Exit code and termination of the driver -/

theorem waitList_succ_last (cfg : Config) (m : Nat) (iv : ℚ) :
    waitList cfg (m + 1) iv = waitList cfg m iv ++ [(nextInterval cfg)^[m] iv] := by
  induction m generalizing iv with
  | zero => rfl
  | succ m ih =>
    rw [waitList, ih (nextInterval cfg iv)]
    rfl

theorem advancing_clock_reading (cfg : Config) (env : Env)
    (hstart : env.now 0 [] ≤ env.now 1 [])
    (hadv : ∀ i ws w, env.now i ws + w ≤ env.now (i + 1) (ws ++ [w])) (m : Nat) :
    env.now 0 [] + (waitList cfg m cfg.initialInterval).sum ≤
      env.now (m + 1) (waitList cfg m cfg.initialInterval) := by
  induction m with
  | zero => simpa [waitList] using hstart
  | succ m ih =>
    rw [waitList_succ_last, List.sum_append]
    have := hadv (m + 1) (waitList cfg m cfg.initialInterval)
      ((nextInterval cfg)^[m] cfg.initialInterval)
    simp only [List.sum_cons, List.sum_nil, add_zero]
    linarith

theorem report_code (j : Job) :
    ((report j).2 = 0 ∨ (report j).2 = 1) ∧ ((report j).2 = 0 ↔ j.status = "completed") := by
  unfold report
  by_cases h1 : j.status = "failed"
  · simp [h1]
  · by_cases h2 : j.status = "completed"
    · simp [h2]
    · simp [h1, h2]

theorem run_exits (env : Env) (N fuel : Nat)
    (hlate : MAX_WAIT_TIME <
      env.now (N + 1) (waitList sourceConfig N 5000) - env.now 0 [])
    (hfuel : N ≤ fuel) : (run fuel env).exitCode ≠ none := by
  rcases run_cases fuel env with
    ⟨_, h⟩ | ⟨d, _, _, h⟩ | ⟨d, o, _, _, _, h⟩ | ⟨d, u, _, _, _, h⟩ | ⟨d, u, _, _, _, _, h⟩ |
      ⟨d, u, j0, hsub, hup, hupl, h0⟩
  · rw [h]; simp
  · rw [h]; simp
  · rw [h]; simp
  · rw [h]; simp
  · rw [h]; simp
  · rw [run_ok fuel env d u j0 hsub hup hupl h0]
    have hnr := pollLoop_not_running env (env.now 0 []) N fuel j0 5000 1 []
      (by simpa [Nat.add_comm] using hlate) hfuel
    generalize pollLoop env (env.now 0 []) fuel j0 5000 1 [] = r at hnr
    obtain ⟨e4, r2⟩ := r
    cases r2 with
    | left j1 => simp [finish]
    | exited => simp [finish]
    | running => exact absurd rfl hnr

theorem run_exit_code (fuel : Nat) (env : Env) (c : Nat)
    (hc : (run fuel env).exitCode = some c) :
    (c = 0 ∨ c = 1) ∧ (c = 0 ↔ Succeeded env (run fuel env).trace) := by
  rcases run_cases fuel env with
    ⟨_, h⟩ | ⟨d, _, _, h⟩ | ⟨d, o, _, _, _, h⟩ | ⟨d, u, _, _, _, h⟩ | ⟨d, u, _, _, _, _, h⟩ |
      ⟨d, u, j0, hsub, hup, hupl, h0⟩
  · rw [h] at hc ⊢
    have hc1 : c = 1 := by simpa using hc.symm
    subst hc1
    simp [Succeeded, fetches]
  · rw [h] at hc ⊢
    have hc1 : c = 1 := by simpa using hc.symm
    subst hc1
    simp [Succeeded, fetches]
  · rw [h] at hc ⊢
    have hc1 : c = 1 := by simpa using hc.symm
    subst hc1
    simp [Succeeded, fetches]
  · rw [h] at hc ⊢
    have hc1 : c = 1 := by simpa using hc.symm
    subst hc1
    simp [Succeeded, fetches]
  · rw [h] at hc ⊢
    have hc1 : c = 1 := by simpa using hc.symm
    subst hc1
    simp [Succeeded, fetches]
  · rw [run_ok fuel env d u j0 hsub hup hupl h0,
      preamble_ok env d u j0 hsub hup hupl h0] at hc ⊢
    have hpost := pollLoop_post env (env.now 0 []) fuel j0 5000 1 []
    have hupc := pollLoop_uploadCalls env (env.now 0 []) fuel j0 5000 1 []
    generalize pollLoop env (env.now 0 []) fuel j0 5000 1 [] = r
      at hc hpost hupc ⊢
    obtain ⟨e4, r2⟩ := r
    simp only [] at hpost hupc
    cases r2 with
    | running => simp [finish] at hc
    | exited =>
      have hc1 : c = 1 := by simpa [finish] using hc.symm
      subst hc1
      simp only [LoopPost] at hpost
      refine ⟨Or.inr rfl, ?_⟩
      constructor
      · intro h01
        exact absurd h01 (by decide)
      · intro hS
        obtain ⟨_, _, _, j, hlast, _⟩ := hS
        simp only [finish, fetches_append, fetches_cons, fetches_nil, fetches_check,
          List.nil_append, List.singleton_append, List.getLast?_cons, hpost] at hlast
        simp at hlast
    | left j1 =>
      have hc1 : c = (report j1).2 := by simpa [finish] using hc.symm
      subst hc1
      simp only [LoopPost] at hpost
      refine ⟨(report_code j1).1, ?_⟩
      rw [(report_code j1).2]
      have hf : fetches (finish
          ([.submitCall, .append (.updateThemeResponse d), .uploadCall u.url,
              .append .uploadResponse] ++ (checkUpdateJobStatus (some j0)).1)
          (e4, .left j1)).trace = some j0 :: fetches e4 := by
        simp only [finish, fetches_append, fetches_cons, fetches_nil, fetches_check,
          fetches_report, List.nil_append, List.singleton_append, List.append_nil]
      have hu : uploadCalls (finish
          ([.submitCall, .append (.updateThemeResponse d), .uploadCall u.url,
              .append .uploadResponse] ++ (checkUpdateJobStatus (some j0)).1)
          (e4, .left j1)).trace = [u.url] := by
        simp only [finish, uploadCalls_append, uploadCalls_cons, uploadCalls_nil,
          uploadCalls_check, uploadCalls_report, hupc, List.nil_append, List.append_nil]
      constructor
      · intro hdone
        refine ⟨by simp [hsub], ⟨u.url, hu, hupl⟩, ?_, j1, ?_, hdone⟩
        · intro x hx
          rw [hf] at hx
          rcases List.mem_cons.mp hx with hx | hx
          · simp [hx]
          · exact hpost.2 x hx
        · rw [hf, List.getLast?_cons, hpost.1]
      · intro hS
        obtain ⟨_, _, _, j, hlast, hdone⟩ := hS
        rw [hf, List.getLast?_cons, hpost.1] at hlast
        have : j1 = j := by simpa using hlast
        rw [this]
        exact hdone

theorem run_frozen (fuel : Nat) :
    run fuel frozenEnv =
      ⟨preamble frozenEnv ++ stepsTrace sourceConfig frozenEnv fuel 5000 1, none⟩ := by
  have h := run_steps frozenEnv (fun _ => pendingJob) fuel 0 okSubmit
    ⟨some "https://uploads.example/put", some [("key", "value")]⟩ rfl rfl rfl
    (fun _ _ => rfl)
    (fun _ _ => ⟨show pendingJob.status ≠ "completed" by decide,
      show pendingJob.status ≠ "failed" by decide⟩)
    (fun i _ => by norm_num [frozenEnv, sourceConfig, MAX_WAIT_TIME])
  rw [Nat.zero_add] at h
  have hz := pollLoop_zero frozenEnv (frozenEnv.now 0 []) pendingJob
    ((nextInterval sourceConfig)^[fuel] 5000) (fuel + 1)
    (waitList sourceConfig fuel 5000)
    (by decide) (by decide) (by norm_num [frozenEnv, sourceConfig, MAX_WAIT_TIME])
  rw [h, hz]
  simp [finish, sourceConfig]

/-! ## Reference runs -/

theorem run_pendingThenFailed :
    run 1 (simEnv pendingThenFailed) =
      ⟨preamble (simEnv pendingThenFailed) ++
          stepsTrace sourceConfig (simEnv pendingThenFailed) 1 5000 1 ++
          [.append (.jobFailed (some ["e1", "e2"])), .exit 1], some 1⟩ := by
  have h := run_ends (simEnv pendingThenFailed)
    (fun i => if i < 1 then pendingJob else ⟨"failed", some ["e1", "e2"]⟩) 1 1 okSubmit
    ⟨some "https://uploads.example/put", some [("key", "value")]⟩ rfl rfl rfl
    (fun i _ => by
      by_cases hi : i < 1 <;> simp [simEnv, pendingThenFailed, hi])
    (fun i hi => by
      simp only [hi, if_true]
      exact ⟨by decide, by decide⟩)
    (fun i hi => by
      have := source_waits_within_deadline i (by omega)
      simpa [simEnv, simulatedClock, sourceConfig] using this)
    (Or.inr (by simp))
    (Nat.le_refl 1)
  rw [h]
  simp [report, sourceConfig]

/-! ## Events after the loop -/

theorem finish_trace (pre : List Event) (r : List Event × LoopEnd) :
    ∃ tail, (finish pre r).trace = pre ++ r.1 ++ tail ∧ waits tail = [] ∧ fetches tail = [] ∧
      pollEvents tail = [] ∧ uploadCalls tail = [] := by
  obtain ⟨e4, r2⟩ := r
  cases r2 with
  | left j =>
    exact ⟨(report j).1, rfl, waits_report j, fetches_report j, pollEvents_report j,
      uploadCalls_report j⟩
  | exited => exact ⟨[], by simp [finish], rfl, rfl, rfl, rfl⟩
  | running => exact ⟨[], by simp [finish], rfl, rfl, rfl, rfl⟩

/-! ## Counting status calls and bounding waits -/

theorem pollLoop_fetch_count (env : Env) (st : ℚ) :
    ∀ fuel job iv n ws,
      (fetches (pollLoop env st fuel job iv n ws).1).length =
        (waits (pollLoop env st fuel job iv n ws).1).length := by
  apply pollLoop_induct env st
    (fun _ _ _ _ r => (fetches r.1).length = (waits r.1).length)
  · intro _ _ _ _ _
    rfl
  · intro _ _ _ _ _ _ _
    rfl
  · intro _ _ _ _ _ _ _
    rfl
  · intro _ iv _ _ _ _ _ _
    rfl
  · intro _ iv _ _ job1 rest _ _ _ _ ih
    simp only [] at ih ⊢
    rw [waits_step, fetches_step, List.length_cons, List.length_cons, ih]

theorem waitList_source_bounds :
    ∀ (k : Nat) (iv : ℚ), 5000 ≤ iv → iv ≤ 60000 →
      ∀ w ∈ waitList sourceConfig k iv, 5000 ≤ w ∧ w ≤ 60000 := by
  intro k
  induction k with
  | zero =>
    intro iv _ _ w hw
    simp [waitList] at hw
  | succ k ih =>
    intro iv h1 h2 w hw
    rw [waitList, List.mem_cons] at hw
    rcases hw with hw | hw
    · rw [hw]
      exact ⟨h1, h2⟩
    · refine ih (nextInterval sourceConfig iv) ?_ ?_ w hw
      · rw [nextInterval_source]
        exact le_min (by linarith) (by norm_num)
      · rw [nextInterval_source]
        exact min_le_right _ _

theorem waitList_head (cfg : Config) (k : Nat) (iv w : ℚ)
    (h : (waitList cfg k iv).head? = some w) : w = iv := by
  cases k with
  | zero => simp [waitList] at h
  | succ k =>
    simp [waitList] at h
    exact h.symm

/-! ## C1: the exit code -/

/-- C1, counterexample.  When every call succeeds, every status is `pending`
and the clock never advances, the driver never exits: for every number of
observed loop iterations it is still inside the loop (no exit code), having
made one more status call than iterations observed. -/
theorem frozen_clock_never_exits :
    (∀ fuel, (run fuel frozenEnv).exitCode = none) ∧
      (∀ fuel, (fetches (run fuel frozenEnv).trace).length = fuel + 1) := by
  constructor
  · intro fuel
    rw [run_frozen]
  · intro fuel
    rw [run_frozen, preamble_ok frozenEnv okSubmit
      ⟨some "https://uploads.example/put", some [("key", "value")]⟩ pendingJob rfl rfl rfl rfl]
    simp only [fetches_append, fetches_cons, fetches_nil, fetches_check, fetches_stepsTrace,
      List.nil_append, List.append_nil, List.length_append, List.length_map,
      List.length_range', List.length_singleton]
    omega

/-- C1, as amended.  For every outcome of the submit and upload calls, every
sequence of status responses and every clock: whenever the driver exits, its
code is 0 or 1, and it is 0 if and only if the submit call, the upload call
and every status fetch succeeded and the last status fetched is exactly
`completed`.  The driver does exit, within `N` loop iterations, whenever the
reading at the loop-top check after `N` waits is more than `MAX_WAIT_TIME`
past the start time; in particular it exits within 10 iterations under every
clock that does not run backwards and advances by at least the waited
duration across each wait. -/
theorem exit_code_zero_iff :
    (∀ (fuel : Nat) (env : Env) (c : Nat), (run fuel env).exitCode = some c →
      (c = 0 ∨ c = 1) ∧ (c = 0 ↔ Succeeded env (run fuel env).trace)) ∧
    (∀ (env : Env) (N : Nat),
      MAX_WAIT_TIME < env.now (N + 1) (waitList sourceConfig N 5000) - env.now 0 [] →
      ∀ fuel, N ≤ fuel → (run fuel env).exitCode ≠ none) ∧
    (∀ (env : Env), env.now 0 [] ≤ env.now 1 [] →
      (∀ i ws w, env.now i ws + w ≤ env.now (i + 1) (ws ++ [w])) →
      ∀ fuel, 10 ≤ fuel → (run fuel env).exitCode ≠ none) := by
  refine ⟨?_, ?_, ?_⟩
  · intro fuel env c hc
    exact run_exit_code fuel env c hc
  · intro env N hlate fuel hfuel
    exact run_exits env N fuel hlate hfuel
  · intro env hstart hadv fuel hfuel
    have h := advancing_clock_reading sourceConfig env hstart hadv 10
    have hsum := source_waits_past_deadline.2
    refine run_exits env 10 fuel ?_ hfuel
    simp only [sourceConfig] at h ⊢
    simp only [sourceConfig] at hsum
    linarith

/-- C1, witness: the all-`pending` run under the simulated clock exits with
code 1 within 10 iterations, and is not a success. -/
theorem exit_code_zero_iff_witness :
    (((1 : Nat) = 0 ∨ (1 : Nat) = 1) ∧
        ((1 : Nat) = 0 ↔
          Succeeded (simEnv fun _ => some pendingJob)
            (run 10 (simEnv fun _ => some pendingJob)).trace)) ∧
      (run 10 (simEnv fun _ => some pendingJob)).exitCode ≠ none ∧
      (run 11 (simEnv fun _ => some pendingJob)).exitCode ≠ none :=
  ⟨exit_code_zero_iff.1 10 (simEnv fun _ => some pendingJob) 1
      (by rw [run_all_pending 10 (Nat.le_refl 10)]),
    exit_code_zero_iff.2.1 (simEnv fun _ => some pendingJob) 10
      (by
        have := source_waits_past_deadline.2
        simpa [simEnv, simulatedClock] using this)
      10 (Nat.le_refl 10),
    exit_code_zero_iff.2.2 (simEnv fun _ => some pendingJob)
      (by simp [simEnv, simulatedClock])
      (by
        intro i ws w
        simp [simEnv, simulatedClock])
      11 (by decide)⟩

/-! ## C2: the n-th wait of the backoff -/

/-- C2.  The initial interval, the growth factor and the cap of the poll loop
are the literals 5000 (line 166), 1.5 and 60000 (line 178).  For them the n-th
wait (n ≥ 1) of every run of the driver is `min (5000 * (3/2)^(n-1)) 60000`,
that is the n-th entry of 5000, 7500, 11250, 16875, 25312.5, 37968.75,
56953.125 and 60000 from the 8th wait on, as exact rationals; the run whose
status stays `pending` under the simulated clock performs exactly the first
ten of these waits. -/
theorem backoff_nth_wait :
    (∀ (fuel : Nat) (env : Env) (n : Nat) (w : ℚ), 1 ≤ n →
        (waits (run fuel env).trace)[n - 1]? = some w →
        w = min (5000 * (3 / 2) ^ (n - 1)) 60000 ∧
        w = ([5000, 7500, 11250, 16875, 25312.5, 37968.75, 56953.125] : List ℚ).getD
          (n - 1) 60000) ∧
    waits (run 10 (simEnv fun _ => some pendingJob)).trace =
      [5000, 7500, 11250, 16875, 25312.5, 37968.75, 56953.125, 60000, 60000, 60000] := by
  refine ⟨?_, ?_⟩
  · intro fuel env n w _ hw
    obtain ⟨k, hk⟩ := waits_run fuel env
    rw [hk] at hw
    have h : w = min (5000 * (3 / 2) ^ (n - 1)) 60000 := by
      rw [waitList_getElem? sourceConfig k _ (n - 1) w hw]
      exact iterate_nextInterval sourceConfig (by norm_num [sourceConfig])
        (by norm_num [sourceConfig]) (n - 1)
    refine ⟨h, ?_⟩
    generalize n - 1 = i at h
    by_cases hi : i < 7
    · rw [h]
      interval_cases i <;> norm_num
    · have hi7 : 7 ≤ i := Nat.le_of_not_lt hi
      have hp : (3 / 2 : ℚ) ^ 7 ≤ (3 / 2) ^ i := pow_le_pow_right₀ (by norm_num) hi7
      have hbig : (60000 : ℚ) ≤ 5000 * (3 / 2) ^ i := by
        have : (60000 : ℚ) ≤ 5000 * (3 / 2) ^ 7 := by norm_num
        linarith
      rw [h, min_eq_right hbig]
      obtain ⟨k, rfl⟩ : ∃ k, i = k + 7 := ⟨i - 7, by omega⟩
      simp
  · rw [run_all_pending 10 (Nat.le_refl 10),
      waits_timeout_trace _ okSubmit ⟨some "https://uploads.example/put", some [("key", "value")]⟩
        pendingJob "pending" rfl rfl rfl rfl]
    norm_num

/-- C2, witness: the third wait of the all-`pending` simulated run is 11250. -/
theorem backoff_nth_wait_witness :
    (11250 : ℚ) = min (5000 * (3 / 2) ^ (3 - 1)) 60000 ∧
      (11250 : ℚ) =
        ([5000, 7500, 11250, 16875, 25312.5, 37968.75, 56953.125] : List ℚ).getD (3 - 1) 60000 :=
  backoff_nth_wait.1 10 (simEnv fun _ => some pendingJob) 3 11250 (by decide)
    (by rw [backoff_nth_wait.2]; rfl)

/-! ## C3: a run that never reaches a terminal status times out -/

/-- C3.  Under the simulated clock, when the submit and upload steps succeed
and every status call returns a status other than `completed` and `failed`,
the driver exits with code 1 for every bound of at least 10 observed loop
iterations.  Its trace is a prefix with exactly 11 status calls (calls 0 to
10) and the 10 waits 5000, ..., 60000, followed by the timeout report, the
unexpected-state report and the exit, so no status call follows the timeout
report.  The waits add up to 340859.375 ms, more than `MAX_WAIT_TIME`, while
the first `i` waits for every `i < 10` add up to at most `MAX_WAIT_TIME`, and
no timeout report occurs earlier. -/
theorem poll_times_out (env : Env) (d : SubmitData) (u : Upload) (t0 : ℚ) (fuel : Nat)
    (hsub : env.submit = some d) (hup : uploadOf d = some u)
    (hupl : env.upload u.url = true) (hclock : env.now = simulatedClock t0)
    (hs : ∀ i, ∃ j, env.status i = some j ∧ j.status ≠ "completed" ∧ j.status ≠ "failed")
    (hfuel : 10 ≤ fuel) :
    (run fuel env).exitCode = some 1 ∧
      (fetches (run fuel env).trace).length = 11 ∧
      ∃ pre s,
        (run fuel env).trace =
          pre ++ [.append .timeout, .append (.unexpectedState s), .exit 1] ∧
        fetches pre = (List.range 11).map env.status ∧
        waits pre =
          [5000, 7500, 11250, 16875, 25312.5, 37968.75, 56953.125, 60000, 60000, 60000] ∧
        (waits pre).sum = 340859.375 ∧
        MAX_WAIT_TIME < (waits pre).sum ∧
        (∀ i, i < 10 → ((waits pre).take i).sum ≤ MAX_WAIT_TIME) ∧
        Record.timeout ∉ records pre := by
  obtain ⟨j, hj, h⟩ := run_all_active env d u t0 fuel hsub hup hupl hclock hs hfuel
  obtain ⟨j0, h0, _⟩ := hs 0
  have hw : waits (preamble env ++ stepsTrace sourceConfig env 10 5000 1) =
      waitList sourceConfig 10 5000 := by
    rw [preamble_ok env d u j0 hsub hup hupl h0]
    simp only [waits_append, waits_cons, waits_nil, waits_check, waits_stepsTrace,
      List.nil_append, List.append_nil]
  have hf : fetches (preamble env ++ stepsTrace sourceConfig env 10 5000 1) =
      (List.range 11).map env.status := by
    rw [preamble_ok env d u j0 hsub hup hupl h0]
    simp only [fetches_append, fetches_cons, fetches_nil, fetches_check, fetches_stepsTrace,
      List.nil_append, List.append_nil]
    rw [← h0]
    rfl
  refine ⟨by rw [h], ?_, preamble env ++ stepsTrace sourceConfig env 10 5000 1, j.status,
    by rw [h], hf, ?_, ?_, ?_, ?_, ?_⟩
  · rw [h]
    simp only [fetches_append, hf, fetches_cons, fetches_nil]
    simp
  · rw [hw, waitList_source_ten]
    norm_num
  · rw [hw, source_waits_past_deadline.1]
    norm_num
  · rw [hw]
    exact source_waits_past_deadline.2
  · intro i hi
    rw [hw, waitList_take sourceConfig 10 i 5000 (Nat.le_of_lt hi)]
    exact not_lt.mp (source_waits_within_deadline i hi)
  · rw [preamble_ok env d u j0 hsub hup hupl h0]
    intro hmem
    simp only [records_append, records_cons, records_nil, List.mem_append] at hmem
    rcases hmem with hmem | hmem
    · rcases hmem with hmem | hmem
      · simp at hmem
      · by_cases hp : j0.status = "pending"
        · rw [records_check_pending j0 hp] at hmem
          simp at hmem
        · rw [records_check_other j0 hp] at hmem
          simp at hmem
    · rcases records_stepsTrace_mem _ _ _ _ _ _ hmem with hx | ⟨jx, hx⟩
      · simp at hx
      · simp at hx

/-- C3, witness: the run whose status is `pending` forever, simulated from time
0, with 10 observed iterations. -/
theorem poll_times_out_witness :
    (run 10 (simEnv fun _ => some pendingJob)).exitCode = some 1 ∧
      (fetches (run 10 (simEnv fun _ => some pendingJob)).trace).length = 11 :=
  have h := poll_times_out (simEnv fun _ => some pendingJob) okSubmit
    ⟨some "https://uploads.example/put", some [("key", "value")]⟩ 0 10 rfl rfl rfl rfl
    (fun _ => ⟨pendingJob, rfl, by decide, by decide⟩) (Nat.le_refl 10)
  ⟨h.1, h.2.1⟩

/-! ## C4: `pending` k times, then `completed` -/

/-- C4.  When the submit and upload steps succeed, the first `k` status calls
return `pending`, call `k` returns `completed`, and no loop-top reading before
that call exceeds the deadline, the driver (observed for at least `k` loop
iterations) exits with code 0 after exactly `k + 1` status calls and `k`
waits, and the summary holds the submit and upload blocks and one status block
for the `completed` response: none for a `pending` response. -/
theorem pending_then_completed (env : Env) (d : SubmitData) (u : Upload) (k fuel : Nat)
    (j : Job) (hsub : env.submit = some d) (hup : uploadOf d = some u)
    (hupl : env.upload u.url = true)
    (hpend : ∀ i, i < k → ∃ p, env.status i = some p ∧ p.status = "pending")
    (hdone : env.status k = some j) (hj : j.status = "completed")
    (hdeadline : ∀ i, i < k →
      ¬ env.now (i + 1) (waitList sourceConfig i 5000) - env.now 0 [] > MAX_WAIT_TIME)
    (hfuel : k ≤ fuel) :
    (run fuel env).exitCode = some 0 ∧
      fetches (run fuel env).trace = (List.range (k + 1)).map env.status ∧
      (fetches (run fuel env).trace).length = k + 1 ∧
      (waits (run fuel env).trace).length = k ∧
      records (run fuel env).trace =
        [.updateThemeResponse d, .uploadResponse, .statusResponse j] := by
  have hJ : ∀ i, i ≤ k → env.status i = some ((env.status i).getD pendingJob) := by
    intro i hi
    rcases Nat.eq_or_lt_of_le hi with h | h
    · subst h
      simp [hdone]
    · obtain ⟨p, hp, _⟩ := hpend i h
      simp [hp]
  have hA : ∀ i, i < k → ((env.status i).getD pendingJob).status ≠ "completed" ∧
      ((env.status i).getD pendingJob).status ≠ "failed" := by
    intro i hi
    obtain ⟨p, hp, hp1⟩ := hpend i hi
    simp [hp, hp1]
  have hend : ((env.status k).getD pendingJob).status = "completed" ∨
      ((env.status k).getD pendingJob).status = "failed" := by
    left
    simp [hdone, hj]
  have h := run_ends env (fun i => (env.status i).getD pendingJob) k fuel
    d u hsub hup hupl hJ hA hdeadline hend hfuel
  have hrep : report ((env.status k).getD pendingJob) = ([.exit 0], 0) := by
    simp [hdone, report, hj]
  simp only [hrep] at h
  rw [h]
  obtain ⟨j0, h0⟩ : ∃ j0, env.status 0 = some j0 := ⟨_, hJ 0 (Nat.zero_le k)⟩
  have hf : fetches (preamble env ++ stepsTrace sourceConfig env k 5000 1
      ++ [.exit 0]) = (List.range (k + 1)).map env.status := by
    rw [preamble_ok env d u j0 hsub hup hupl h0]
    simp only [fetches_append, fetches_cons, fetches_nil, fetches_check, fetches_stepsTrace,
      List.nil_append, List.append_nil]
    rw [← h0, List.range_eq_range', List.range'_succ]
    rfl
  refine ⟨rfl, hf, by rw [hf]; simp, ?_, ?_⟩
  · rw [preamble_ok env d u j0 hsub hup hupl h0]
    simp only [waits_append, waits_cons, waits_nil, waits_check, waits_stepsTrace,
      List.nil_append, List.append_nil, waitList_length]
  · rw [preamble_ok env d u j0 hsub hup hupl h0]
    simp only [records_append, records_cons, records_nil, List.nil_append, List.append_nil]
    cases k with
    | zero =>
      have hj0 : j0 = j := by
        rw [h0] at hdone
        exact Option.some.inj hdone
      subst hj0
      rw [records_check_other j0 (by simp [hj])]
      rfl
    | succ k =>
      obtain ⟨p, hp, hp1⟩ := hpend 0 (Nat.succ_pos k)
      have hj0 : j0 = p := by
        rw [h0] at hp
        exact Option.some.inj hp
      subst hj0
      rw [records_check_pending j0 hp1, stepsTrace_succ_last, records_append, records_cons,
        records_stepsTrace_pending, show 1 + k = k + 1 by omega, hdone,
        records_check_other j (by simp [hj])]
      · rfl
      · intro i hi
        have := hpend (i + 1) (Nat.succ_lt_succ hi)
        rwa [show i + 1 = 1 + i by omega] at this

/-- C4, witness: the sequence `pending, pending, completed` under the simulated
clock gives exit code 0 with exactly 3 status calls. -/
theorem pending_then_completed_witness :
    (run 2 (simEnv twoPendingThenCompleted)).exitCode = some 0 ∧
      (fetches (run 2 (simEnv twoPendingThenCompleted)).trace).length = 2 + 1 ∧
      records (run 2 (simEnv twoPendingThenCompleted)).trace =
        [.updateThemeResponse okSubmit, .uploadResponse, .statusResponse ⟨"completed", none⟩] :=
  have h := pending_then_completed (simEnv twoPendingThenCompleted) okSubmit
    ⟨some "https://uploads.example/put", some [("key", "value")]⟩ 2 2 ⟨"completed", none⟩
    rfl rfl rfl
    (fun i hi => ⟨pendingJob, by simp [simEnv, twoPendingThenCompleted, hi], rfl⟩)
    rfl rfl
    (fun i hi => by
      have := source_waits_within_deadline i (by omega)
      simpa [simEnv, simulatedClock] using this)
    (Nat.le_refl 2)
  ⟨h.1, h.2.2.1, h.2.2.2.2⟩

/-! ## C5: a failed job -/

/-- C5.  Whenever the last status response fetched by a run has status
`failed` (such a response always ends the poll loop), the driver exits with
code 1 and the last thing it does before exiting is to append the job-failure
block built from the `errors` field of exactly that response, unchanged; no
other job-failure block is appended.  In particular a non-empty error list `E`
is reported as `E`. -/
theorem failed_job_reported (fuel : Nat) (env : Env) (j : Job)
    (hlast : (fetches (run fuel env).trace).getLast? = some (some j))
    (hfailed : j.status = "failed") :
    (run fuel env).exitCode = some 1 ∧
      ∃ pre, (run fuel env).trace = pre ++ [.append (.jobFailed j.errors), .exit 1] ∧
        ∀ errs, Record.jobFailed errs ∉ records pre := by
  rcases run_cases fuel env with
    ⟨_, h⟩ | ⟨d, _, _, h⟩ | ⟨d, o, _, _, _, h⟩ | ⟨d, u, _, _, _, h⟩ | ⟨d, u, _, _, _, _, h⟩ |
      ⟨d, u, j0, hsub, hup, hupl, h0⟩
  · rw [h] at hlast
    simp [fetches] at hlast
  · rw [h] at hlast
    simp [fetches] at hlast
  · rw [h] at hlast
    simp [fetches] at hlast
  · rw [h] at hlast
    simp [fetches] at hlast
  · rw [h] at hlast
    simp [fetches] at hlast
  · rw [run_ok fuel env d u j0 hsub hup hupl h0,
      preamble_ok env d u j0 hsub hup hupl h0] at hlast ⊢
    have hpost := pollLoop_post env (env.now 0 []) fuel j0
      5000 1 []
    have hrec := pollLoop_records env (env.now 0 []) fuel j0
      5000 1 []
    generalize pollLoop env (env.now 0 []) fuel j0
      5000 1 [] = r at hlast hpost hrec ⊢
    obtain ⟨e4, r2⟩ := r
    simp only [] at hpost hrec
    cases r2 with
    | running =>
      obtain ⟨j1, hj1, hn1, hn2⟩ := hpost
      simp only [finish, fetches_append, fetches_cons, fetches_nil, fetches_check,
        List.nil_append, List.singleton_append, List.getLast?_cons, hj1] at hlast
      have : j1 = j := by simpa using hlast
      rw [this] at hn2
      exact absurd hfailed hn2
    | exited =>
      simp only [LoopPost] at hpost
      simp only [finish, fetches_append, fetches_cons, fetches_nil, fetches_check,
        List.nil_append, List.singleton_append, List.getLast?_cons, hpost] at hlast
      simp at hlast
    | left j1 =>
      simp only [LoopPost] at hpost
      simp only [finish, fetches_append, fetches_cons, fetches_nil, fetches_check,
        fetches_report, List.nil_append, List.singleton_append, List.append_nil,
        List.getLast?_cons, hpost.1] at hlast
      have hj : j1 = j := by simpa using hlast
      subst hj
      have hrep : report j1 = ([.append (.jobFailed j1.errors), .exit 1], 1) := by
        simp [report, hfailed]
      rw [show finish
          ([.submitCall, .append (.updateThemeResponse d), .uploadCall u.url,
              .append .uploadResponse] ++ (checkUpdateJobStatus (some j0)).1)
          (e4, .left j1) =
          ⟨[.submitCall, .append (.updateThemeResponse d), .uploadCall u.url,
              .append .uploadResponse] ++ (checkUpdateJobStatus (some j0)).1 ++ e4 ++
              [.append (.jobFailed j1.errors), .exit 1], some 1⟩ by
        simp only [finish, hrep]]
      refine ⟨rfl, _, rfl, ?_⟩
      intro errs hmem
      simp only [records_append, records_cons, records_nil, List.mem_append] at hmem
      rcases hmem with (hmem | hmem) | hmem
      · simp at hmem
      · by_cases hp : j0.status = "pending"
        · rw [records_check_pending j0 hp] at hmem
          simp at hmem
        · rw [records_check_other j0 hp] at hmem
          simp at hmem
      · exact hrec _ hmem errs rfl

/-- C5, witness: `pending` then `failed` with errors `e1`, `e2` under the
simulated clock. -/
theorem failed_job_reported_witness :
    (run 1 (simEnv pendingThenFailed)).exitCode = some 1 ∧
      ∃ pre, (run 1 (simEnv pendingThenFailed)).trace =
          pre ++ [.append (.jobFailed (some ["e1", "e2"])), .exit 1] ∧
        ∀ errs, Record.jobFailed errs ∉ records pre :=
  failed_job_reported 1 (simEnv pendingThenFailed) ⟨"failed", some ["e1", "e2"]⟩
    (by
      rw [run_pendingThenFailed, preamble_simEnv pendingThenFailed pendingJob rfl]
      simp only [fetches_append, fetches_cons, fetches_nil, fetches_check, fetches_stepsTrace,
        List.nil_append, List.append_nil]
      rfl)
    rfl

/-! ## C6: a submission response without an upload target -/

/-- C6, counterexample.  For a submission response whose `upload` object is
present but has no `url`, the submit step does not fail: the upload call is
made, with an undefined URL, and it is the upload step that exits. -/
theorem upload_attempted_without_url :
    (run 0 noUrlEnv).trace =
        [.submitCall, .append (.updateThemeResponse noUrlSubmit), .uploadCall none,
          .append .uploadError, .exit 1] ∧
      uploadCalls (run 0 noUrlEnv).trace = [none] := by
  have h : (run 0 noUrlEnv).trace =
      [.submitCall, .append (.updateThemeResponse noUrlSubmit), .uploadCall none,
        .append .uploadError, .exit 1] := by
    simp [run, updateTheme, noUrlEnv, noUrlSubmit, uploadThemeFile]
  exact ⟨h, by rw [h]; rfl⟩

/-- C6, as amended.  For every submission response in which the `upload`
object cannot be reached (`job`, `job.data` or `job.data.upload` is absent),
the driver makes no upload call: the submit step appends its error block and
exits with code 1, so the upload step is never invoked. -/
theorem no_upload_without_upload_object (fuel : Nat) (env : Env) (d : SubmitData)
    (hsub : env.submit = some d) (hnone : uploadObjectOf d = none) :
    (run fuel env).trace =
        [.submitCall, .append (.updateThemeResponse d), .append .updateThemeError,
          .exit 1] ∧
      (run fuel env).exitCode = some 1 ∧
      uploadCalls (run fuel env).trace = [] := by
  have hof : uploadOf d = none := by simp [uploadOf, hnone]
  rcases run_cases fuel env with
    ⟨hn, _⟩ | ⟨d1, hd, _, h⟩ | ⟨d1, o, hd, hobj, _, _⟩ | ⟨d1, u, hd, hup, _, _⟩ |
      ⟨d1, u, hd, hup, _, _, _⟩ | ⟨d1, u, j0, hd, hup, _, _⟩
  · rw [hn] at hsub
    exact absurd hsub (by simp)
  · have hdd : d1 = d := by
      rw [hd] at hsub
      exact Option.some.inj hsub
    subst hdd
    rw [h]
    exact ⟨rfl, rfl, rfl⟩
  · have hdd : d1 = d := by
      rw [hd] at hsub
      exact Option.some.inj hsub
    subst hdd
    rw [hobj] at hnone
    exact absurd hnone (by simp)
  · have hdd : d1 = d := by
      rw [hd] at hsub
      exact Option.some.inj hsub
    subst hdd
    rw [hup] at hof
    exact absurd hof (by simp)
  · have hdd : d1 = d := by
      rw [hd] at hsub
      exact Option.some.inj hsub
    subst hdd
    rw [hup] at hof
    exact absurd hof (by simp)
  · have hdd : d1 = d := by
      rw [hd] at hsub
      exact Option.some.inj hsub
    subst hdd
    rw [hup] at hof
    exact absurd hof (by simp)

/-- C6, witness: a response whose job data has no `upload` object. -/
theorem no_upload_without_upload_object_witness :
    (run 0 noUploadEnv).trace =
        [.submitCall, .append (.updateThemeResponse noUploadSubmit),
          .append .updateThemeError, .exit 1] ∧
      (run 0 noUploadEnv).exitCode = some 1 ∧
      uploadCalls (run 0 noUploadEnv).trace = [] :=
  no_upload_without_upload_object 0 noUploadEnv noUploadSubmit rfl rfl

/-! ## C7: startup validation -/

/-- C7, the code at the failing input.  The condition on line 6 is the value of
its last operand alone: validation fails exactly when `THEME_ID` is unset or
empty.  With the subdomain unset and the other three variables set, validation
passes and the script goes on to `run`, whose first event is the submission
call. -/
theorem validation_checks_theme_id_only :
    (∀ p, validationFails p = !truthy p.themeId) ∧
      truthy noSubdomain.subdomain = false ∧
      validationFails noSubdomain = false ∧
      (∀ fuel env, script noSubdomain fuel env = run fuel env) ∧
      (script noSubdomain 0 noUploadEnv).trace.head? = some .submitCall := by
  refine ⟨fun _ => rfl, rfl, by decide, ?_, ?_⟩
  · intro fuel env
    have h : validationFails noSubdomain = false := by decide
    simp [script, h]
  · have h : validationFails noSubdomain = false := by decide
    simp [script, h, run, updateTheme, noUploadEnv, noUploadSubmit]

/-! ## C8: the Authorization credential -/

/-- C8, the code at the failing input.  For the e-mail `agent@example.com` and
the token `abc123` the header credential is the UTF-8 reading of the 20 bytes
obtained by decoding the credential text as if it were Base64, whereas the
Base64 encoding of that text is the 40-character text
`YWdlbnRAZXhhbXBsZS5jb20vdG9rZW46YWJjMTIz`. -/
theorem authValue_decodes_instead_of_encoding :
    credential fullProcessEnv = "agent@example.com/token:abc123" ∧
      (∀ toUtf8, authValue toUtf8 fullProcessEnv =
        toUtf8 [106, 7, 167, 181, 236, 90, 154, 153, 94, 114, 137, 191, 182, 137, 30, 157,
          166, 220, 215, 109]) ∧
      describedCredential fullProcessEnv = "YWdlbnRAZXhhbXBsZS5jb20vdG9rZW46YWJjMTIz" := by
  refine ⟨by decide, ?_, by decide⟩
  intro toUtf8
  have h : bufferFromBase64 (credential fullProcessEnv) =
      [106, 7, 167, 181, 236, 90, 154, 153, 94, 114, 137, 191, 182, 137, 30, 157,
        166, 220, 215, 109] := by decide
  rw [authValue, h]

/-! ## C9: what a timeout reports -/

/-- C9, the code at the failing input.  When the status stays `pending` under
the simulated clock, the run ends through the unexpected-state branch: after
the timeout block the summary receives an unexpected-state block for the
status `pending`, and only then does the process exit with code 1. -/
theorem timeout_also_reports_unexpected_state :
    records (run 10 (simEnv fun _ => some pendingJob)).trace =
        [.updateThemeResponse okSubmit, .uploadResponse, .timeout,
          .unexpectedState "pending"] ∧
      (∃ pre, (run 10 (simEnv fun _ => some pendingJob)).trace =
        pre ++ [.append .timeout, .append (.unexpectedState "pending"), .exit 1]) := by
  rw [run_all_pending 10 (Nat.le_refl 10)]
  refine ⟨?_, _, rfl⟩
  rw [preamble_simEnv _ pendingJob rfl]
  simp only [records_append, records_cons, records_nil, List.nil_append, List.append_nil]
  rw [records_check_pending pendingJob rfl,
    records_stepsTrace_pending _ _ _ _ _ (fun _ _ => ⟨pendingJob, rfl, rfl⟩)]
  rfl

/-! ## C10: one wait between consecutive status calls -/

/-- C10.  In every run of the driver that reaches the poll loop, the status
calls and waits occur in the order call, wait, call, wait, ..., call: every
status call after the first is preceded by exactly one wait since the previous
call, and there is exactly one wait fewer than status calls.  Every wait lies
between the initial interval 5000 ms and the cap 60000 ms, so it is never
zero, and the first wait is exactly 5000 ms.  (A run that ends before the
loop makes no status call and no wait.) -/
theorem one_wait_between_fetches (fuel : Nat) (env : Env) :
    ((pollEvents (run fuel env).trace = [] ∧ fetches (run fuel env).trace = [] ∧
          waits (run fuel env).trace = []) ∨
        (pollEvents (run fuel env).trace = none :: alternation (waits (run fuel env).trace) ∧
          (fetches (run fuel env).trace).length = (waits (run fuel env).trace).length + 1)) ∧
      (∀ w ∈ waits (run fuel env).trace, 5000 ≤ w ∧ w ≤ 60000) ∧
      (∀ w, (waits (run fuel env).trace).head? = some w → w = 5000) := by
  obtain ⟨k, hk⟩ := waits_run fuel env
  refine ⟨?_, ?_, ?_⟩
  · rcases run_cases fuel env with
      ⟨_, h⟩ | ⟨d, _, _, h⟩ | ⟨d, o, _, _, _, h⟩ | ⟨d, u, _, _, _, h⟩ | ⟨d, u, _, _, _, _, h⟩ |
        ⟨d, u, j0, hsub, hup, hupl, h0⟩
    · left
      rw [h]
      exact ⟨rfl, rfl, rfl⟩
    · left
      rw [h]
      exact ⟨rfl, rfl, rfl⟩
    · left
      rw [h]
      exact ⟨rfl, rfl, rfl⟩
    · left
      rw [h]
      exact ⟨rfl, rfl, rfl⟩
    · right
      rw [h]
      exact ⟨rfl, rfl⟩
    · right
      rw [run_ok fuel env d u j0 hsub hup hupl h0]
      obtain ⟨tail, ht, hw, hf, hp, _⟩ := finish_trace (preamble env)
        (pollLoop env (env.now 0 []) fuel j0 5000 1 [])
      rw [ht, preamble_ok env d u j0 hsub hup hupl h0]
      simp only [pollEvents_append, pollEvents_cons, pollEvents_nil, pollEvents_check,
        waits_append, waits_cons, waits_nil, waits_check, fetches_append, fetches_cons,
        fetches_nil, fetches_check, hw, hf, hp, List.nil_append, List.append_nil,
        pollLoop_pollEvents, List.singleton_append, List.length_cons, pollLoop_fetch_count]
      exact ⟨trivial, trivial⟩
  · intro w hw
    rw [hk] at hw
    exact waitList_source_bounds k 5000 (le_refl _) (by norm_num) w hw
  · intro w hw
    rw [hk] at hw
    exact waitList_head sourceConfig k _ w hw

end UpdateTheme
